import Mathlib

/-!
# Verification of the BadgerDB buffer manager (`src/src/buffer.cpp`)

A shallow embedding of the buffer pool manager: the frame descriptor table,
the `(file, page) → frame` hash table, the CLOCK replacement scan of
`BufMgr::allocBuf`, and the public operations `readPage`, `unPinPage`,
`allocPage`, `flushFile` and `disposePage`.

Machine state is explicit (`BufState`); every fallible operation returns a
`Res` value carrying the error or result together with the post-state and the
trace of completed disk operations (`FOp`).  Disk I/O success is an explicit
parameter (`readOk` / `wOk`): `false` means the corresponding `File` call
raises an I/O error at the point the C++ code invokes it.
-/

set_option maxRecDepth 10000

namespace BufMgrModel

/-- File identity: the address of the `File*` object (two distinct `File`
objects are distinct keys even for the same path). -/
abbrev FileId := Nat

abbrev PageId := Nat

abbrev FrameId := Nat

/-- A hash-table key: the owning file pointer (possibly null, i.e. `none`)
paired with the page number. -/
abbrev HKey := Option FileId × PageId

/-- Per-frame metadata (`BufDesc`).  The `frameNo` field of the C++ struct is
the index of the descriptor in `bufDescTable` and is kept implicit here. -/
structure BufDesc where
  file : Option FileId
  pageNo : PageId
  pinCnt : Nat
  dirty : Bool
  refbit : Bool
  valid : Bool
deriving Repr, DecidableEq

/-- Modelled from the spec: `BufDesc::Clear` lives in `buffer.h`, which is not
in `src/`.  Per §4.1 "clear() resets to empty state" and §9 "after `clear()`,
`file` must be set to a sentinel (null/None/invalid)". -/
def BufDesc.Clear : BufDesc :=
  { file := none, pageNo := 0, pinCnt := 0, dirty := false,
    refbit := false, valid := false }

/-- Modelled from the spec: `BufDesc::Set(file, pageNo)` lives in `buffer.h`,
which is not in `src/`.  Per §4.1 "installs identity, pinCnt=1, other bits
reset" and §3.3 admission "sets valid, file, pageNo, pinCnt=1, dirty=false,
refbit=false". -/
def BufDesc.Set (fid : FileId) (pno : PageId) : BufDesc :=
  { file := some fid, pageNo := pno, pinCnt := 1, dirty := false,
    refbit := false, valid := true }

instance : Inhabited BufDesc := ⟨BufDesc.Clear⟩

/-- The associative index, as a list of key/frame entries. -/
abbrev HashTbl := List (HKey × FrameId)

/-- Modelled from the spec: `BufHashTbl::lookup` (§4.2), returning the frame
for the key or `none` (`HashNotFoundException`) when absent. -/
def htLookup (t : HashTbl) (k : HKey) : Option FrameId :=
  (t.find? (fun e => decide (e.1 = k))).map (fun e => e.2)

/-- Modelled from the spec: `BufHashTbl::insert` (§4.2), which "fails with
`DuplicateKey` if the key is already present"; `none` is that failure. -/
def htInsert (t : HashTbl) (k : HKey) (f : FrameId) : Option HashTbl :=
  if (htLookup t k).isSome then none else some ((k, f) :: t)

/-- Modelled from the spec: `BufHashTbl::remove` (§4.2), which "fails with
`NotFound` when absent"; `none` is that failure.  Since `htInsert` rejects
duplicate keys the key occurs at most once, so dropping every entry with the
key removes exactly the mapping. -/
def htRemove (t : HashTbl) (k : HKey) : Option HashTbl :=
  if (htLookup t k).isSome then some (t.filter (fun e => decide (e.1 ≠ k)))
  else none

/-- The buffer manager state: pool capacity, descriptor table, the page
number stored in each pool frame, the hash table, and the clock hand. -/
structure BufState where
  numBufs : Nat
  bufDescTable : List BufDesc
  bufPool : List PageId
  hashTable : HashTbl
  clockHand : Nat
deriving Repr, DecidableEq

/-- Descriptor at frame `f` (out-of-range reads yield the cleared
descriptor). -/
def BufState.descAt (st : BufState) (f : Nat) : BufDesc :=
  st.bufDescTable.getD f BufDesc.Clear

/-- Replace the descriptor at frame `f`. -/
def BufState.setDesc (st : BufState) (f : Nat) (d : BufDesc) : BufState :=
  { st with bufDescTable := st.bufDescTable.set f d }

/-- The page number of the page held in pool frame `f`. -/
def BufState.poolAt (st : BufState) (f : Nat) : PageId :=
  st.bufPool.getD f 0

/-- `BufMgr::BufMgr(bufs)`: all descriptors start invalid, the pool is
allocated, the hash table is empty, and `clockHand = bufs - 1`. -/
def mkBufMgr (bufs : Nat) : BufState :=
  { numBufs := bufs,
    bufDescTable := List.replicate bufs BufDesc.Clear,
    bufPool := List.replicate bufs 0,
    hashTable := [],
    clockHand := bufs - 1 }

/-- `BufMgr::advanceClock`: `clockHand++; clockHand %= numBufs`. -/
def advanceClock (st : BufState) : BufState :=
  { st with clockHand := (st.clockHand + 1) % st.numBufs }

/-- The exception kinds the operations can raise. -/
inductive BufError where
  | bufferExceeded
  | pageNotPinned
  | pagePinned
  | badBuffer
  | hashNotFound
  | duplicateKey
  | ioError
deriving Repr, DecidableEq

/-- Completed disk operations on the external `File` collaborator. -/
inductive FOp where
  | writeP (fid : Option FileId) (pno : PageId)
  | readP (fid : Option FileId) (pno : PageId)
  | allocP (fid : Option FileId)
  | deleteP (fid : Option FileId) (pno : PageId)
deriving Repr, DecidableEq

/-- Result of an operation: value or error, post-state, and the trace of
completed disk operations. -/
inductive Res (α : Type) where
  | ok (val : α) (st : BufState) (tr : List FOp)
  | err (e : BufError) (st : BufState) (tr : List FOp)
deriving Repr, DecidableEq

/-- Result of the CLOCK scan loop in `allocBuf`: `found` when the loop broke
with `found = true`, `exhausted` when the `for` loop ran out, `fail` when an
exception escaped the loop body.  `adv` counts the `advanceClock` calls. -/
inductive ScanRes where
  | found (st : BufState) (tr : List FOp) (adv : Nat)
  | exhausted (st : BufState) (tr : List FOp) (adv : Nat)
  | fail (e : BufError) (st : BufState) (tr : List FOp)
deriving Repr, DecidableEq

/-- The loop body of `BufMgr::allocBuf` (buffer.cpp lines 71–94), iterated a
given number of times: advance the clock, select an invalid frame on sight,
clear a set refbit, skip pinned frames, and otherwise evict (remove the hash
entry, then clear `dirty` and write back — in that order). -/
def allocBufGo (wOk : Bool) : Nat → BufState → List FOp → Nat → ScanRes
  | 0, st, tr, adv => .exhausted st tr adv
  | fuel + 1, st, tr, adv =>
    let st1 := advanceClock st
    let d := st1.descAt st1.clockHand
    if d.valid then
      if d.refbit then
        allocBufGo wOk fuel (st1.setDesc st1.clockHand { d with refbit := false })
          tr (adv + 1)
      else if d.pinCnt ≠ 0 then
        allocBufGo wOk fuel st1 tr (adv + 1)
      else
        match htRemove st1.hashTable (d.file, d.pageNo) with
        | none => .fail .hashNotFound st1 tr
        | some t =>
          let st2 : BufState := { st1 with hashTable := t }
          if d.dirty then
            let st3 := st2.setDesc st2.clockHand { d with dirty := false }
            if wOk then
              .found st3 (tr ++ [.writeP d.file (st3.poolAt st3.clockHand)]) (adv + 1)
            else
              .fail .ioError st3 tr
          else
            .found st2 tr (adv + 1)
    else
      .found st1 tr (adv + 1)

/-- `BufMgr::allocBuf` (buffer.cpp lines 69–99): run the scan for
`numBufs + 1` iterations (`for(i = 0; i <= numBufs; i++)`); throw
`BufferExceededException` on exhaustion, else `Clear()` the selected frame
and return its id. -/
def allocBuf (st : BufState) (wOk : Bool) : Res FrameId :=
  match allocBufGo wOk (st.numBufs + 1) st [] 0 with
  | .found st1 tr _ => .ok st1.clockHand (st1.setDesc st1.clockHand BufDesc.Clear) tr
  | .exhausted st1 tr _ => .err .bufferExceeded st1 tr
  | .fail e st1 tr => .err e st1 tr

/-- `BufMgr::readPage` (buffer.cpp lines 111–130).  On hit: set `refbit`,
increment `pinCnt`, return the frame.  On miss: `allocBuf`, read the page
from disk (`readOk = false` makes `file->readPage` throw), insert the hash
entry, `Set` the descriptor. -/
def readPage (st : BufState) (fid : FileId) (pno : PageId)
    (readOk wOk : Bool) : Res FrameId :=
  match htLookup st.hashTable (some fid, pno) with
  | some f =>
    let d := st.descAt f
    .ok f (st.setDesc f { d with refbit := true, pinCnt := d.pinCnt + 1 }) []
  | none =>
    match allocBuf st wOk with
    | .err e st1 tr => .err e st1 tr
    | .ok f st1 tr =>
      if readOk then
        let st2 : BufState := { st1 with bufPool := st1.bufPool.set f pno }
        let tr2 := tr ++ [.readP (some fid) pno]
        match htInsert st2.hashTable (some fid, pno) f with
        | none => .err .duplicateKey st2 tr2
        | some t =>
          .ok f (BufState.setDesc { st2 with hashTable := t } f (BufDesc.Set fid pno)) tr2
      else
        .err .ioError st1 tr

/-- `BufMgr::unPinPage` (buffer.cpp lines 138–153): silently succeed when the
page is absent; throw `PageNotPinnedException` when `pinCnt == 0`; otherwise
decrement `pinCnt` and set (never clear) the dirty bit when asked. -/
def unPinPage (st : BufState) (fid : FileId) (pno : PageId)
    (dirty : Bool) : Res Unit :=
  match htLookup st.hashTable (some fid, pno) with
  | none => .ok () st []
  | some f =>
    let d := st.descAt f
    if d.pinCnt = 0 then .err .pageNotPinned st []
    else
      .ok () (st.setDesc f { d with pinCnt := d.pinCnt - 1, dirty := d.dirty || dirty }) []

/-- `BufMgr::allocPage` (buffer.cpp lines 161–170): `allocBuf`, then
`file->allocatePage()` (its fresh page number is the parameter `newPno`),
then insert the hash entry and `Set` the descriptor. -/
def allocPage (st : BufState) (fid : FileId) (newPno : PageId)
    (wOk : Bool) : Res (PageId × FrameId) :=
  match allocBuf st wOk with
  | .err e st1 tr => .err e st1 tr
  | .ok f st1 tr =>
    let st2 : BufState := { st1 with bufPool := st1.bufPool.set f newPno }
    let tr2 := tr ++ [.allocP (some fid)]
    match htInsert st2.hashTable (some fid, newPno) f with
    | none => .err .duplicateKey st2 tr2
    | some t =>
      .ok (newPno, f) (BufState.setDesc { st2 with hashTable := t } f (BufDesc.Set fid newPno)) tr2

/-- The scan loop of `BufMgr::flushFile` (buffer.cpp lines 181–200), starting
at frame `i` with `fuel` frames left to visit.  For each frame owned by the
file: `BadBufferException` when invalid, `PagePinnedException` when pinned,
else write back when dirty (write first, then clear `dirty`), remove the hash
entry, and `Clear()` the descriptor. -/
def flushFileGo (fid : FileId) (wOk : Bool) :
    Nat → Nat → BufState → List FOp → Res Unit
  | _, 0, st, tr => .ok () st tr
  | i, fuel + 1, st, tr =>
    let d := st.descAt i
    if d.file = some fid ∧ d.valid = false then
      .err .badBuffer st tr
    else if d.file = some fid ∧ d.valid = true then
      if d.pinCnt ≠ 0 then .err .pagePinned st tr
      else if d.dirty ∧ wOk = false then .err .ioError st tr
      else
        let tr1 := if d.dirty then tr ++ [.writeP d.file (st.poolAt i)] else tr
        let stW := if d.dirty then st.setDesc i { d with dirty := false } else st
        match htRemove stW.hashTable (some fid, d.pageNo) with
        | none => .err .hashNotFound stW tr1
        | some t =>
          flushFileGo fid wOk (i + 1) fuel
            (BufState.setDesc { stW with hashTable := t } i BufDesc.Clear) tr1
    else
      flushFileGo fid wOk (i + 1) fuel st tr

/-- `BufMgr::flushFile` (buffer.cpp lines 179–201): scan all frames from 0. -/
def flushFile (st : BufState) (fid : FileId) (wOk : Bool) : Res Unit :=
  flushFileGo fid wOk 0 st.numBufs st []

/-- `BufMgr::disposePage` (buffer.cpp lines 208–227).  When resident: clear
`dirty` then write back if it was dirty, `Clear()` the descriptor, remove the
hash entry, and `file->deletePage`.  When not resident: just
`file->deletePage`. -/
def disposePage (st : BufState) (fid : FileId) (pno : PageId)
    (wOk : Bool) : Res Unit :=
  match htLookup st.hashTable (some fid, pno) with
  | none => .ok () st [.deleteP (some fid) pno]
  | some f =>
    let d := st.descAt f
    if d.dirty ∧ wOk = false then
      .err .ioError (st.setDesc f { d with dirty := false }) []
    else
      let st1 := if d.dirty then st.setDesc f { d with dirty := false } else st
      let tr1 : List FOp := if d.dirty then [.writeP (some fid) (st.poolAt f)] else []
      let st2 := st1.setDesc f BufDesc.Clear
      match htRemove st2.hashTable (some fid, pno) with
      | none => .err .hashNotFound st2 tr1
      | some t =>
        .ok () { st2 with hashTable := t } (tr1 ++ [.deleteP (some fid) pno])

/-- The error of a result, if any. -/
def Res.errOf {α : Type} : Res α → Option BufError
  | .ok _ _ _ => none
  | .err e _ _ => some e

/-- The post-state of a result. -/
def Res.stOf {α : Type} : Res α → BufState
  | .ok _ st _ => st
  | .err _ st _ => st

/-- The disk-operation trace of a result. -/
def Res.trOf {α : Type} : Res α → List FOp
  | .ok _ _ tr => tr
  | .err _ _ tr => tr

/-- The state carried by a scan result. -/
def ScanRes.stOf : ScanRes → BufState
  | .found st _ _ => st
  | .exhausted st _ _ => st
  | .fail _ st _ => st

/-! ## Basic lemmas about descriptors and the hash table -/

theorem descAt_setDesc_self (st : BufState) (f : Nat) (d : BufDesc)
    (h : f < st.bufDescTable.length) : (st.setDesc f d).descAt f = d := by
  simp [BufState.descAt, BufState.setDesc, List.getD_eq_getElem?_getD,
    List.getElem?_set_self' , h, List.getElem?_eq_getElem]

theorem descAt_setDesc_ne (st : BufState) (f g : Nat) (d : BufDesc)
    (h : g ≠ f) : (st.setDesc f d).descAt g = st.descAt g := by
  simp [BufState.descAt, BufState.setDesc, List.getD_eq_getElem?_getD,
    List.getElem?_set_ne (fun hh => h hh.symm)]

theorem descAt_setDesc_clear_valid (st : BufState) (f : Nat) :
    ((st.setDesc f BufDesc.Clear).descAt f).valid = false := by
  by_cases h : f < st.bufDescTable.length
  · rw [descAt_setDesc_self st f _ h]; rfl
  · simp [BufState.descAt, BufState.setDesc, List.getD_eq_getElem?_getD,
      List.getElem?_set, h]
    rfl

theorem htLookup_eq_none_iff (t : HashTbl) (k : HKey) :
    htLookup t k = none ↔ ∀ e ∈ t, e.1 ≠ k := by
  simp [htLookup, List.find?_eq_none]

theorem htLookup_isSome_of_mem {t : HashTbl} {k : HKey} {f : FrameId}
    (h : (k, f) ∈ t) : (htLookup t k).isSome := by
  have hs : (t.find? (fun e => decide (e.1 = k))).isSome :=
    List.find?_isSome.mpr ⟨(k, f), h, by simp⟩
  simpa [htLookup] using hs

theorem htRemove_of_lookup_isSome {t : HashTbl} {k : HKey}
    (h : (htLookup t k).isSome) :
    htRemove t k = some (t.filter (fun e => decide (e.1 ≠ k))) := by
  simp [htRemove, h]

theorem htLookup_filter_self (t : HashTbl) (k : HKey) :
    htLookup (t.filter (fun e => decide (e.1 ≠ k))) k = none := by
  rw [htLookup_eq_none_iff]
  intro e he
  have := (List.mem_filter.mp he).2
  simpa using this

theorem find?_filter_of_imp {α : Type} (l : List α) (p q : α → Bool)
    (h : ∀ e, p e = true → q e = true) :
    (l.filter q).find? p = l.find? p := by
  induction l with
  | nil => rfl
  | cons a l ih =>
    by_cases hp : p a = true
    · rw [List.filter_cons, h a hp]
      simp [List.find?_cons, hp, ih]
    · rw [List.filter_cons]
      by_cases hq : q a = true
      · simp [hq, List.find?_cons, hp, ih]
      · simp [hq, List.find?_cons, hp, ih]

theorem htLookup_filter_ne (t : HashTbl) (k k' : HKey) (h : k' ≠ k) :
    htLookup (t.filter (fun e => decide (e.1 ≠ k))) k' = htLookup t k' := by
  unfold htLookup
  rw [find?_filter_of_imp]
  intro e he
  simp only [decide_eq_true_eq] at he ⊢
  rw [he]
  exact h

theorem htLookup_of_mem_nodup {t : HashTbl} {k : HKey} {f : FrameId}
    (hnd : (t.map Prod.fst).Nodup) (h : (k, f) ∈ t) :
    htLookup t k = some f := by
  induction t with
  | nil => simp at h
  | cons e t ih =>
    rw [List.map_cons, List.nodup_cons] at hnd
    rcases List.mem_cons.mp h with h | h
    · simp [htLookup, List.find?_cons, ← h]
    · have hne : e.1 ≠ k := by
        intro hk
        exact hnd.1 (hk ▸ (List.mem_map.mpr ⟨(k, f), h, rfl⟩))
      simp only [htLookup, List.find?_cons]
      simp [hne, htLookup] at ih ⊢
      exact ih hnd.2 h

theorem mem_of_htLookup {t : HashTbl} {k : HKey} {f : FrameId}
    (h : htLookup t k = some f) : (k, f) ∈ t := by
  unfold htLookup at h
  rcases Option.map_eq_some'.mp h with ⟨e, he, hef⟩
  have hmem := List.mem_of_find?_eq_some he
  have hk := List.find?_some he
  simp at hk
  cases e
  simp_all

theorem htLookup_filter_none (t : HashTbl) (p : HKey × FrameId → Bool) (k : HKey)
    (h : htLookup t k = none) : htLookup (t.filter p) k = none := by
  rw [htLookup_eq_none_iff] at h ⊢
  intro e he
  exact h e (List.mem_filter.mp he).1

theorem htRemove_some_eq {t t' : HashTbl} {k : HKey}
    (h : htRemove t k = some t') :
    t' = t.filter (fun e => decide (e.1 ≠ k)) := by
  unfold htRemove at h
  split at h
  · exact (Option.some.injEq _ _ ▸ h).symm
  · cases h

@[simp] theorem hashTable_advanceClock (st : BufState) :
    (advanceClock st).hashTable = st.hashTable := rfl

@[simp] theorem hashTable_setDesc (st : BufState) (f : Nat) (d : BufDesc) :
    (st.setDesc f d).hashTable = st.hashTable := rfl

@[simp] theorem numBufs_advanceClock (st : BufState) :
    (advanceClock st).numBufs = st.numBufs := rfl

@[simp] theorem numBufs_setDesc (st : BufState) (f : Nat) (d : BufDesc) :
    (st.setDesc f d).numBufs = st.numBufs := rfl

@[simp] theorem clockHand_setDesc (st : BufState) (f : Nat) (d : BufDesc) :
    (st.setDesc f d).clockHand = st.clockHand := rfl

@[simp] theorem descTable_length_setDesc (st : BufState) (f : Nat) (d : BufDesc) :
    (st.setDesc f d).bufDescTable.length = st.bufDescTable.length := by
  simp [BufState.setDesc]

@[simp] theorem bufPool_advanceClock (st : BufState) :
    (advanceClock st).bufPool = st.bufPool := rfl

@[simp] theorem bufPool_setDesc (st : BufState) (f : Nat) (d : BufDesc) :
    (st.setDesc f d).bufPool = st.bufPool := rfl

/-- The CLOCK scan never adds hash-table entries: a key absent before the scan
is absent from the state any scan outcome carries. -/
theorem allocBufGo_lookup_none (wOk : Bool) (k : HKey) :
    ∀ (fuel : Nat) (st : BufState) (tr : List FOp) (adv : Nat),
    htLookup st.hashTable k = none →
    htLookup ((allocBufGo wOk fuel st tr adv).stOf).hashTable k = none := by
  intro fuel
  induction fuel with
  | zero =>
    intro st tr adv h
    simpa [allocBufGo, ScanRes.stOf] using h
  | succ n ih =>
    intro st tr adv h
    simp only [allocBufGo]
    split
    · split
      · exact ih _ _ _ (by simpa using h)
      · split
        · exact ih _ _ _ (by simpa using h)
        · split
          · simpa [ScanRes.stOf] using h
          · rename_i t hrem
            have ht := htRemove_some_eq hrem
            split
            · split
              · simpa [ScanRes.stOf, ht] using htLookup_filter_none _ _ _ h
              · simpa [ScanRes.stOf, ht] using htLookup_filter_none _ _ _ h
            · simpa [ScanRes.stOf, ht] using htLookup_filter_none _ _ _ h
    · simpa [ScanRes.stOf] using h

/-- `allocBuf` never adds hash-table entries. -/
theorem allocBuf_lookup_none {st : BufState} {wOk : Bool} {k : HKey}
    {f : FrameId} {st1 : BufState} {tr : List FOp}
    (h : htLookup st.hashTable k = none)
    (ha : allocBuf st wOk = Res.ok f st1 tr) :
    htLookup st1.hashTable k = none := by
  unfold allocBuf at ha
  cases hg : allocBufGo wOk (st.numBufs + 1) st [] 0 with
  | found s t a =>
    rw [hg] at ha
    have hs := allocBufGo_lookup_none wOk k (st.numBufs + 1) st [] 0 h
    rw [hg] at hs
    cases ha
    simpa [ScanRes.stOf] using hs
  | exhausted s t a => rw [hg] at ha; cases ha
  | fail e s t => rw [hg] at ha; cases ha

/-- The frame returned by a successful `allocBuf` is the cleared clock-hand
frame: it is not valid. -/
theorem allocBuf_ok_valid_false {st : BufState} {wOk : Bool}
    {f : FrameId} {st1 : BufState} {tr : List FOp}
    (ha : allocBuf st wOk = Res.ok f st1 tr) :
    (st1.descAt f).valid = false := by
  unfold allocBuf at ha
  cases hg : allocBufGo wOk (st.numBufs + 1) st [] 0 with
  | found s t a =>
    rw [hg] at ha
    cases ha
    exact descAt_setDesc_clear_valid s s.clockHand
  | exhausted s t a => rw [hg] at ha; cases ha
  | fail e s t => rw [hg] at ha; cases ha

theorem descAt_setDesc_cases (st : BufState) (f : Nat) (d : BufDesc) :
    (st.setDesc f d).descAt f = d ∨ (st.setDesc f d).descAt f = BufDesc.Clear := by
  by_cases h : f < st.bufDescTable.length
  · exact Or.inl (descAt_setDesc_self st f d h)
  · refine Or.inr ?_
    simp [BufState.descAt, BufState.setDesc, List.getD_eq_getElem?_getD,
      List.getElem?_set, h]

/-- Shared shape lemma for `disposePage` on a resident page, when either the
frame is clean or write-back succeeds. -/
theorem disposePage_resident {st : BufState} {fid : FileId} {pno : PageId}
    {wOk : Bool} {f : FrameId}
    (hl : htLookup st.hashTable (some fid, pno) = some f)
    (h2 : (st.descAt f).dirty = false ∨ wOk = true) :
    disposePage st fid pno wOk =
      Res.ok ()
        { (if (st.descAt f).dirty then st.setDesc f { st.descAt f with dirty := false } else st).setDesc f BufDesc.Clear with
            hashTable := st.hashTable.filter (fun e => decide (e.1 ≠ ((some fid : Option FileId), pno))) }
        ((if (st.descAt f).dirty then [FOp.writeP (some fid) (st.poolAt f)] else []) ++
          [FOp.deleteP (some fid) pno]) := by
  have hsome : (htLookup st.hashTable ((some fid : Option FileId), pno)).isSome := by
    rw [hl]; rfl
  have hrem := htRemove_of_lookup_isSome hsome
  have hnd : ¬((st.descAt f).dirty = true ∧ wOk = false) := by
    rcases h2 with h2 | h2 <;> simp [h2]
  by_cases hd : (st.descAt f).dirty = true
  · have hw : wOk = true := by
      rcases h2 with h2 | h2
      · rw [hd] at h2; cases h2
      · exact h2
    simp [disposePage, hl, hd, hrem, hw]
  · simp only [Bool.not_eq_true] at hd
    simp [disposePage, hl, hd, hrem]

/-! ## Concrete states -/

/-- A pool of two valid frames, both with `refbit = true`: frame 0 pinned,
frame 1 unpinned — reachable by reading page 1 twice and unpinning once, then
reading page 2 twice and unpinning twice. -/
def c1failState : BufState :=
  { numBufs := 2,
    bufDescTable :=
      [ { file := some 0, pageNo := 1, pinCnt := 1, dirty := false, refbit := true, valid := true },
        { file := some 0, pageNo := 2, pinCnt := 0, dirty := false, refbit := true, valid := true } ],
    bufPool := [1, 2],
    hashTable := [((some 0, 1), 0), ((some 0, 2), 1)],
    clockHand := 1 }

/-- A one-frame pool whose only frame is valid, unpinned and dirty. -/
def c2failState : BufState :=
  { numBufs := 1,
    bufDescTable :=
      [ { file := some 0, pageNo := 5, pinCnt := 0, dirty := true, refbit := false, valid := true } ],
    bufPool := [5],
    hashTable := [((some 0, 5), 0)],
    clockHand := 0 }

/-- Two frames of file 7: frame 0 clean and unpinned, frame 1 pinned. -/
def c3failState : BufState :=
  { numBufs := 2,
    bufDescTable :=
      [ { file := some 7, pageNo := 1, pinCnt := 0, dirty := false, refbit := false, valid := true },
        { file := some 7, pageNo := 2, pinCnt := 1, dirty := false, refbit := false, valid := true } ],
    bufPool := [1, 2],
    hashTable := [((some 7, 1), 0), ((some 7, 2), 1)],
    clockHand := 1 }

/-- A two-frame pool with one resident pinned dirty page and one empty frame,
used to instantiate the general theorems at a concrete input. -/
def demoState : BufState :=
  { numBufs := 2,
    bufDescTable :=
      [ { file := some 3, pageNo := 9, pinCnt := 2, dirty := true, refbit := true, valid := true },
        BufDesc.Clear ],
    bufPool := [9, 0],
    hashTable := [((some 3, 9), 0)],
    clockHand := 1 }

/-! ## Claims -/

/-- C1: the claim says `allocBuf` fails with `BufferExceededException`
precisely when every frame has `pinCnt > 0`, and that a selectable frame is
found within `2N + 1` advances whenever one exists.  The code is wrong: its
scan makes only `numBufs + 1` advances, so in `c1failState` — where frame 1
is valid with `pinCnt = 0` and would be selected on the second pass — it
still throws, contradicting its own comment "Throws BufferExceededException
if all buffer frames are pinned". -/
theorem claim1_code_bug :
    (c1failState.descAt 1).valid = true ∧
    (c1failState.descAt 1).pinCnt = 0 ∧
    1 < c1failState.numBufs ∧
    (allocBuf c1failState true).errOf = some BufError.bufferExceeded := by decide

/-- C2: the claim (and the spec) require eviction to be atomic with respect
to write-back failure: the victim stays valid, its dirty bit stays set, and
its page-table mapping is preserved.  The code is wrong: it removes the hash
entry and clears the dirty bit *before* calling `file->writePage`, so when
the write fails in `c2failState` the mapping is gone and the dirty bit is
false (the frame does stay valid). -/
theorem claim2_code_bug :
    (c2failState.descAt 0).dirty = true ∧
    (c2failState.descAt 0).valid = true ∧
    htLookup c2failState.hashTable (some 0, 5) = some 0 ∧
    (allocBuf c2failState false).errOf = some BufError.ioError ∧
    ((allocBuf c2failState false).stOf.descAt 0).valid = true ∧
    ((allocBuf c2failState false).stOf.descAt 0).dirty = false ∧
    htLookup (allocBuf c2failState false).stOf.hashTable (some 0, 5) = none := by decide

/-- C3 (counterexample): the claim says a `flushFile` that fails with
`PagePinned` leaves every clean unpinned frame of the file unchanged.  In
`c3failState` frame 0 is a clean unpinned valid frame of file 7, yet after
the failing flush it is invalid and its entry is gone: the scan flushes
frames preceding the pinned one before throwing. -/
theorem claim3_counterexample :
    (c3failState.descAt 0).file = some 7 ∧
    (c3failState.descAt 0).valid = true ∧
    (c3failState.descAt 0).pinCnt = 0 ∧
    (c3failState.descAt 0).dirty = false ∧
    (flushFile c3failState 7 true).errOf = some BufError.pagePinned ∧
    ((flushFile c3failState 7 true).stOf.descAt 0).valid = false ∧
    htLookup (flushFile c3failState 7 true).stOf.hashTable (some 7, 1) = none := by decide

/-- C6: `unPinPage` silently succeeds with no state change when the page is
absent from the page table; fails with `NotPinned` when present with
`pinCnt = 0`; otherwise decrements `pinCnt` and ors the caller's dirty flag
into the dirty bit — with `dirty = false` the bit is left unchanged, and it
is never cleared. -/
theorem claim6_unpin (st : BufState) (fid : FileId) (pno : PageId) (d : Bool) :
    (htLookup st.hashTable (some fid, pno) = none →
      unPinPage st fid pno d = Res.ok () st []) ∧
    (∀ f, htLookup st.hashTable (some fid, pno) = some f →
      ((st.descAt f).pinCnt = 0 →
        unPinPage st fid pno d = Res.err BufError.pageNotPinned st []) ∧
      ((st.descAt f).pinCnt ≠ 0 →
        unPinPage st fid pno d =
          Res.ok ()
            (st.setDesc f { st.descAt f with
              pinCnt := (st.descAt f).pinCnt - 1,
              dirty := (st.descAt f).dirty || d }) [])) := by
  refine ⟨fun h => by simp [unPinPage, h], fun f hf => ⟨fun h0 => ?_, fun h0 => ?_⟩⟩
  · simp [unPinPage, hf, h0]
  · simp [unPinPage, hf, h0]

/-- C6 witness: unpinning the pinned dirty resident page of `demoState` with
`dirty = false` decrements the pin count and leaves the dirty bit set. -/
theorem claim6_unpin_witness :
    unPinPage demoState 3 9 false =
      Res.ok ()
        (demoState.setDesc 0 { demoState.descAt 0 with
          pinCnt := (demoState.descAt 0).pinCnt - 1,
          dirty := (demoState.descAt 0).dirty || false }) [] :=
  ((claim6_unpin demoState 3 9 false).2 0 (by decide)).2 (by decide)

/-- C7: when `file->readPage` fails during a miss, the error propagates with
exactly the post-`allocBuf` state: the frame obtained from the replacer is
not valid and no entry for the requested page was installed. -/
theorem claim7_read_io_error (st : BufState) (fid : FileId) (pno : PageId)
    (wOk : Bool) (f : FrameId) (st1 : BufState) (tr : List FOp)
    (hmiss : htLookup st.hashTable (some fid, pno) = none)
    (halloc : allocBuf st wOk = Res.ok f st1 tr) :
    readPage st fid pno false wOk = Res.err BufError.ioError st1 tr ∧
    (st1.descAt f).valid = false ∧
    htLookup st1.hashTable (some fid, pno) = none := by
  refine ⟨?_, allocBuf_ok_valid_false halloc, allocBuf_lookup_none hmiss halloc⟩
  simp [readPage, hmiss, halloc]

/-- C10: `disposePage` never checks the pin count: on a resident page pinned
by callers it still succeeds, writes the page back when dirty, clears the
descriptor, removes the mapping, and calls `file->deletePage`. -/
theorem claim10_dispose_pinned (st : BufState) (fid : FileId) (pno : PageId)
    (f : FrameId)
    (hl : htLookup st.hashTable (some fid, pno) = some f)
    (_hpin : 0 < (st.descAt f).pinCnt) :
    ∃ st', disposePage st fid pno true =
        Res.ok () st'
          ((if (st.descAt f).dirty then [FOp.writeP (some fid) (st.poolAt f)] else []) ++
            [FOp.deleteP (some fid) pno]) ∧
      htLookup st'.hashTable (some fid, pno) = none ∧
      (st'.descAt f).valid = false := by
  refine ⟨_, disposePage_resident hl (Or.inr rfl), ?_, ?_⟩
  · exact htLookup_filter_self _ _
  · exact descAt_setDesc_clear_valid _ _

/-- C10 witness: disposing page 9 of file 3 in `demoState`, whose frame has
`pinCnt = 2`, succeeds, writes the dirty page back and deletes it. -/
theorem claim10_dispose_pinned_witness :
    ∃ st', disposePage demoState 3 9 true =
        Res.ok () st'
          ((if (demoState.descAt 0).dirty then [FOp.writeP (some 3) (demoState.poolAt 0)] else []) ++
            [FOp.deleteP (some 3) 9]) ∧
      htLookup st'.hashTable (some 3, 9) = none ∧
      (st'.descAt 0).valid = false :=
  claim10_dispose_pinned demoState 3 9 0 (by decide) (by decide)

theorem htInsert_some_eq {t t' : HashTbl} {k : HKey} {f : FrameId}
    (h : htInsert t k f = some t') :
    htLookup t k = none ∧ t' = (k, f) :: t := by
  unfold htInsert at h
  split at h
  · cases h
  · rename_i hns
    exact ⟨Option.not_isSome_iff_eq_none.mp hns, (Option.some.injEq _ _ ▸ h).symm⟩

/-- The state produced by admitting page `pno` of file `fid` into the free
frame `f` of `stA`: copy the page into the pool, cons the hash entry, `Set`
the descriptor. -/
def installState (stA : BufState) (fid : FileId) (pno : PageId) (f : FrameId) : BufState :=
  { numBufs := stA.numBufs,
    bufDescTable := stA.bufDescTable.set f (BufDesc.Set fid pno),
    bufPool := stA.bufPool.set f pno,
    hashTable := (((some fid : Option FileId), pno), f) :: stA.hashTable,
    clockHand := stA.clockHand }

/-- A successful `allocPage` decomposes into a successful `allocBuf` followed
by installing the fresh page. -/
theorem allocPage_ok_shape {st : BufState} {fid : FileId} {newPno : PageId}
    {wOk : Bool} {pnoR : PageId} {f : FrameId} {st1 : BufState} {tr : List FOp}
    (h : allocPage st fid newPno wOk = Res.ok (pnoR, f) st1 tr) :
    pnoR = newPno ∧
    ∃ stA tA, allocBuf st wOk = Res.ok f stA tA ∧
      htLookup stA.hashTable (some fid, newPno) = none ∧
      st1 = installState stA fid newPno f ∧
      tr = tA ++ [FOp.allocP (some fid)] := by
  unfold allocPage at h
  split at h
  · cases h
  · rename_i f' sA tA hA
    simp only at h
    split at h
    · cases h
    · rename_i t hins
      obtain ⟨hno, rfl⟩ := htInsert_some_eq hins
      cases h
      exact ⟨rfl, sA, tA, hA, hno, rfl, rfl⟩

/-- C9: `disposePage` calls `file->deletePage` unconditionally — both when
the page is not resident (the only disk operation) and when it is resident,
in which case it also writes back when dirty, removes the mapping and clears
the descriptor; hence `allocPage` followed by `disposePage` of the returned
page leaves no residue: no mapping and an invalid frame. -/
theorem claim9_dispose (st : BufState) (fid : FileId) (pno : PageId) (wOk : Bool) :
    (htLookup st.hashTable (some fid, pno) = none →
      disposePage st fid pno wOk = Res.ok () st [FOp.deleteP (some fid) pno]) ∧
    (∀ f, htLookup st.hashTable (some fid, pno) = some f →
      ((st.descAt f).dirty = false ∨ wOk = true) →
      ∃ st', disposePage st fid pno wOk =
          Res.ok () st'
            ((if (st.descAt f).dirty then [FOp.writeP (some fid) (st.poolAt f)] else []) ++
              [FOp.deleteP (some fid) pno]) ∧
        htLookup st'.hashTable (some fid, pno) = none ∧
        (st'.descAt f).valid = false) ∧
    (∀ newPno pnoR f st1 tr,
      allocPage st fid newPno wOk = Res.ok (pnoR, f) st1 tr →
      pnoR = newPno ∧
      ∃ st2, disposePage st1 fid newPno true =
          Res.ok () st2 [FOp.deleteP (some fid) newPno] ∧
        htLookup st2.hashTable (some fid, newPno) = none ∧
        (st2.descAt f).valid = false) := by
  refine ⟨fun h => by simp [disposePage, h],
    fun f hf h2 =>
      ⟨_, disposePage_resident hf h2, htLookup_filter_self _ _,
        descAt_setDesc_clear_valid _ _⟩,
    fun newPno pnoR f st1 tr h => ?_⟩
  obtain ⟨rfl, stA, tA, hA, hno, hst1, htr⟩ := allocPage_ok_shape h
  subst hst1
  refine ⟨rfl, ?_⟩
  have hl1 : htLookup (installState stA fid pnoR f).hashTable
      ((some fid : Option FileId), pnoR) = some f := by
    simp [installState, htLookup]
  have hdirt : ((installState stA fid pnoR f).descAt f).dirty = false := by
    have hcases : (installState stA fid pnoR f).descAt f = BufDesc.Set fid pnoR ∨
        (installState stA fid pnoR f).descAt f = BufDesc.Clear := by
      by_cases hlen : f < stA.bufDescTable.length
      · exact Or.inl (by
          simp [installState, BufState.descAt, List.getD_eq_getElem?_getD,
            List.getElem?_set_self' , hlen])
      · exact Or.inr (by
          simp [installState, BufState.descAt, List.getD_eq_getElem?_getD,
            List.getElem?_set, hlen])
    rcases hcases with hc | hc <;> rw [hc] <;> rfl
  have hres := @disposePage_resident (installState stA fid pnoR f) fid pnoR true f hl1 (Or.inl hdirt)
  simp only [hdirt, Bool.false_eq_true, if_false, List.nil_append] at hres
  exact ⟨_, hres, htLookup_filter_self _ _, descAt_setDesc_clear_valid _ _⟩

/-- The state after `allocBuf demoState true`: the scan cleared frame 0's
refbit and selected the empty frame 1. -/
def w7mid : BufState :=
  { numBufs := 2,
    bufDescTable :=
      [ { file := some 3, pageNo := 9, pinCnt := 2, dirty := true, refbit := false, valid := true },
        BufDesc.Clear ],
    bufPool := [9, 0],
    hashTable := [((some 3, 9), 0)],
    clockHand := 1 }

/-- C7 witness: a miss on page 1 of file 5 in `demoState` with a failing disk
read propagates the I/O error, leaves frame 1 invalid, and installs no
mapping. -/
theorem claim7_read_io_error_witness :
    readPage demoState 5 1 false true = Res.err BufError.ioError w7mid [] ∧
    (w7mid.descAt 1).valid = false ∧
    htLookup w7mid.hashTable (some 5, 1) = none :=
  claim7_read_io_error demoState 5 1 true 1 w7mid [] (by decide) (by decide)

/-- The state after `allocPage demoState 4 42 true`: page 42 of file 4 is
installed in frame 1 with `pinCnt = 1`. -/
def w9mid : BufState :=
  { numBufs := 2,
    bufDescTable :=
      [ { file := some 3, pageNo := 9, pinCnt := 2, dirty := true, refbit := false, valid := true },
        { file := some 4, pageNo := 42, pinCnt := 1, dirty := false, refbit := false, valid := true } ],
    bufPool := [9, 42],
    hashTable := [((some 4, 42), 1), ((some 3, 9), 0)],
    clockHand := 1 }

/-- C9 witness: allocating page 42 of file 4 in `demoState` and disposing it
leaves no residue of that page. -/
theorem claim9_dispose_witness :
    (42 : PageId) = 42 ∧
    ∃ st2, disposePage w9mid 4 42 true = Res.ok () st2 [FOp.deleteP (some 4) 42] ∧
      htLookup st2.hashTable (some 4, 42) = none ∧
      (st2.descAt 1).valid = false :=
  (claim9_dispose demoState 4 0 true).2.2 42 42 1 w9mid
    [FOp.allocP (some 4)] (by decide)

/-! ## The descriptor/page-table invariant (spec §3.2) -/

/-- The hash-table entries that map to frame `f`. -/
def entriesTo (t : HashTbl) (f : FrameId) : HashTbl :=
  t.filter (fun e => decide (e.2 = f))

/-- Well-formedness: a non-empty pool whose tables have the right lengths. -/
def WF (st : BufState) : Prop :=
  0 < st.numBufs ∧
  st.bufDescTable.length = st.numBufs ∧
  st.bufPool.length = st.numBufs

/-- The claimed invariant: keys are unique (no `(file, page)` mapped to two
frames), every mapped frame is in range, and a frame is valid iff the table
has exactly one entry mapping to it — the entry for its own file and page. -/
def Inv (st : BufState) : Prop :=
  (st.hashTable.map Prod.fst).Nodup ∧
  (∀ e ∈ st.hashTable, e.2 < st.numBufs) ∧
  (∀ f, f < st.numBufs →
    ((st.descAt f).valid = true →
      entriesTo st.hashTable f = [(((st.descAt f).file, (st.descAt f).pageNo), f)]) ∧
    ((st.descAt f).valid = false → entriesTo st.hashTable f = []))

theorem entriesTo_filter_comm (t : HashTbl) (q : HKey × FrameId → Bool) (f : FrameId) :
    entriesTo (t.filter q) f = (entriesTo t f).filter q := by
  rw [entriesTo, entriesTo, List.filter_filter, List.filter_filter]
  exact List.filter_congr (fun e _ => by rw [Bool.and_comm])

theorem entriesTo_cons (e : HKey × FrameId) (t : HashTbl) (f : FrameId) :
    entriesTo (e :: t) f =
      if e.2 = f then e :: entriesTo t f else entriesTo t f := by
  by_cases h : e.2 = f <;> simp [entriesTo, List.filter_cons, h]

theorem mem_of_entriesTo_singleton {t : HashTbl} {f : FrameId}
    {e : HKey × FrameId} (h : entriesTo t f = [e]) : e ∈ t ∧ e.2 = f := by
  have hm : e ∈ entriesTo t f := by rw [h]; exact List.mem_singleton_self e
  have := List.mem_filter.mp hm
  exact ⟨this.1, by simpa using this.2⟩

theorem nodup_keys_mem_eq {t : HashTbl} {k : HKey} {v v' : FrameId}
    (hnd : (t.map Prod.fst).Nodup) (h1 : (k, v) ∈ t) (h2 : (k, v') ∈ t) :
    v = v' := by
  induction t with
  | nil => simp at h1
  | cons e t ih =>
    rw [List.map_cons, List.nodup_cons] at hnd
    rcases List.mem_cons.mp h1 with h1 | h1 <;>
      rcases List.mem_cons.mp h2 with h2 | h2
    · rw [← h2] at h1; exact (Prod.ext_iff.mp h1).2
    · exact absurd (List.mem_map.mpr ⟨(k, v'), h2, by rw [← h1]⟩) hnd.1
    · exact absurd (List.mem_map.mpr ⟨(k, v), h1, by rw [← h2]⟩) hnd.1
    · exact ih hnd.2 h1 h2

/-- Removing the key of the unique entry mapping to `v` empties `v`'s entry
list and leaves every other frame's entry list unchanged. -/
theorem entriesTo_remove_key {t : HashTbl} {k : HKey} {v : FrameId}
    (hnd : (t.map Prod.fst).Nodup)
    (hv : entriesTo t v = [(k, v)]) :
    entriesTo (t.filter (fun e => decide (e.1 ≠ k))) v = [] ∧
    ∀ g, g ≠ v →
      entriesTo (t.filter (fun e => decide (e.1 ≠ k))) g = entriesTo t g := by
  have hkv : ((k, v) : HKey × FrameId) ∈ t := (mem_of_entriesTo_singleton hv).1
  constructor
  · rw [entriesTo_filter_comm, hv]
    simp
  · intro g hg
    rw [entriesTo_filter_comm]
    apply List.filter_eq_self.mpr
    intro e he
    have heg := List.mem_filter.mp he
    have het : e ∈ t := heg.1
    have he2 : e.2 = g := by simpa using heg.2
    simp only [decide_eq_true_eq]
    intro hek
    have hmem : ((k, e.2) : HKey × FrameId) ∈ t := by
      have he : e = (k, e.2) := by
        cases e with
        | mk a b => simp only at hek; rw [hek]
      rw [← he]
      exact het
    have hv2 : e.2 = v := nodup_keys_mem_eq hnd hmem hkv
    exact hg (he2 ▸ hv2)

@[simp] theorem descAt_advanceClock (st : BufState) (f : Nat) :
    (advanceClock st).descAt f = st.descAt f := rfl

@[simp] theorem clockHand_advanceClock (st : BufState) :
    (advanceClock st).clockHand = (st.clockHand + 1) % st.numBufs := rfl

@[simp] theorem descTable_length_advanceClock (st : BufState) :
    (advanceClock st).bufDescTable.length = st.bufDescTable.length := rfl

theorem valid_descAt_lt {st : BufState} {i : Nat}
    (h : (st.descAt i).valid = true) : i < st.bufDescTable.length := by
  by_contra hc
  push_neg at hc
  have hcl : st.descAt i = BufDesc.Clear := by
    simp [BufState.descAt, List.getD_eq_getElem?_getD, List.getElem?_eq_none hc]
  rw [hcl] at h
  cases h

theorem inv_advanceClock {st : BufState} (hInv : Inv st) :
    Inv (advanceClock st) := hInv

/-- Changing a descriptor without touching its `valid`, `file` or `pageNo`
fields (pin counts, dirty and reference bits) preserves the invariant. -/
theorem inv_setDesc_same_identity {st : BufState} {f : Nat} {d' : BufDesc}
    (hInv : Inv st) (hlen : st.bufDescTable.length = st.numBufs)
    (hf : f < st.numBufs)
    (hval : d'.valid = (st.descAt f).valid)
    (hfile : d'.file = (st.descAt f).file)
    (hpno : d'.pageNo = (st.descAt f).pageNo) :
    Inv (st.setDesc f d') := by
  obtain ⟨hnd, hrng, hfr⟩ := hInv
  refine ⟨hnd, hrng, fun g hg => ?_⟩
  by_cases hgf : g = f
  · subst hgf
    rw [descAt_setDesc_self _ _ _ (by rw [hlen]; exact hg)]
    constructor
    · intro hv
      rw [hfile, hpno]
      exact (hfr g hg).1 (hval ▸ hv)
    · intro hv
      exact (hfr g hg).2 (hval ▸ hv)
  · rw [descAt_setDesc_ne _ _ _ _ hgf]
    exact hfr g hg

/-- What holds of the state carried by a `found` scan result: the invariant
at every frame other than the hand, and no entry mapping to the hand (which
`allocBuf` is about to `Clear`). -/
def ScanOut (N : Nat) (st : BufState) : Prop :=
  (st.hashTable.map Prod.fst).Nodup ∧
  (∀ e ∈ st.hashTable, e.2 < N) ∧
  (∀ f, f < N → f ≠ st.clockHand →
    ((st.descAt f).valid = true →
      entriesTo st.hashTable f = [(((st.descAt f).file, (st.descAt f).pageNo), f)]) ∧
    ((st.descAt f).valid = false → entriesTo st.hashTable f = [])) ∧
  entriesTo st.hashTable st.clockHand = []

/-- The CLOCK scan, run from an invariant state, delivers a `found` state
satisfying `ScanOut` with the hand in range and pool/table sizes intact. -/
theorem allocBufGo_found_inv (wOk : Bool) :
    ∀ (fuel : Nat) (st : BufState) (tr : List FOp) (adv : Nat)
      (st' : BufState) (tr' : List FOp) (adv' : Nat),
    Inv st → 0 < st.numBufs → st.bufDescTable.length = st.numBufs →
    allocBufGo wOk fuel st tr adv = ScanRes.found st' tr' adv' →
    st'.numBufs = st.numBufs ∧
    st'.bufDescTable.length = st.bufDescTable.length ∧
    st'.bufPool = st.bufPool ∧
    st'.clockHand < st.numBufs ∧
    ScanOut st.numBufs st' := by
  intro fuel
  induction fuel with
  | zero =>
    intro st tr adv st' tr' adv' _ _ _ h
    simp [allocBufGo] at h
  | succ n ih =>
    intro st tr adv st' tr' adv' hInv hN hlen h
    have hh1 : (st.clockHand + 1) % st.numBufs < st.numBufs := Nat.mod_lt _ hN
    simp only [allocBufGo, descAt_advanceClock, clockHand_advanceClock] at h
    split at h
    · rename_i hv
      split at h
      · rename_i hr
        -- refbit branch: clear the refbit and continue
        have hInv1 : Inv ((advanceClock st).setDesc ((st.clockHand + 1) % st.numBufs)
            { st.descAt ((st.clockHand + 1) % st.numBufs) with refbit := false }) :=
          inv_setDesc_same_identity (inv_advanceClock hInv) hlen hh1 rfl rfl rfl
        obtain ⟨e1, e2, e3, e4, e5⟩ := ih _ _ _ _ _ _ hInv1 hN (by simpa using hlen) h
        exact ⟨e1, by simpa using e2, by simpa using e3, e4, e5⟩
      · rename_i hr
        split at h
        · rename_i hp
          -- pinned branch: continue
          obtain ⟨e1, e2, e3, e4, e5⟩ := ih _ _ _ _ _ _ (inv_advanceClock hInv) hN hlen h
          exact ⟨e1, e2, e3, e4, e5⟩
        · rename_i hp
          -- eviction branch
          split at h
          · cases h
          · rename_i t hrem
            have ht := htRemove_some_eq hrem
            subst ht
            have hsing : entriesTo st.hashTable ((st.clockHand + 1) % st.numBufs) =
                [(((st.descAt ((st.clockHand + 1) % st.numBufs)).file,
                   (st.descAt ((st.clockHand + 1) % st.numBufs)).pageNo),
                  (st.clockHand + 1) % st.numBufs)] :=
              (hInv.2.2 _ hh1).1 (by simpa using hv)
            obtain ⟨hrm1, hrm2⟩ := entriesTo_remove_key hInv.1 hsing
            have hnd' : ((st.hashTable.filter
                (fun e => decide (e.1 ≠ ((st.descAt ((st.clockHand + 1) % st.numBufs)).file,
                  (st.descAt ((st.clockHand + 1) % st.numBufs)).pageNo)))).map Prod.fst).Nodup :=
              hInv.1.sublist ((List.filter_sublist _).map Prod.fst)
            have hrng' : ∀ e ∈ st.hashTable.filter
                (fun e => decide (e.1 ≠ ((st.descAt ((st.clockHand + 1) % st.numBufs)).file,
                  (st.descAt ((st.clockHand + 1) % st.numBufs)).pageNo))),
                e.2 < st.numBufs :=
              fun e he => hInv.2.1 e (List.mem_filter.mp he).1
            split at h
            · rename_i hd
              split at h
              · cases h
                -- dirty eviction, write succeeded
                refine ⟨rfl, by simp, rfl, by simpa using hh1, ?_⟩
                refine ⟨by simpa using hnd', by simpa using hrng', ?_, ?_⟩
                · intro g hg hgne
                  have hgne' : g ≠ (st.clockHand + 1) % st.numBufs := by simpa using hgne
                  constructor
                  · intro hv'
                    rw [descAt_setDesc_ne _ _ _ _ hgne'] at hv' ⊢
                    simp only [hashTable_setDesc, hashTable_advanceClock,
                      descAt_advanceClock] at hv' ⊢
                    rw [hrm2 g hgne']
                    exact (hInv.2.2 g hg).1 (by simpa using hv')
                  · intro hv'
                    rw [descAt_setDesc_ne _ _ _ _ hgne'] at hv'
                    simp only [hashTable_setDesc, hashTable_advanceClock,
                      descAt_advanceClock] at hv' ⊢
                    rw [hrm2 g hgne']
                    exact (hInv.2.2 g hg).2 (by simpa using hv')
                · simp only [hashTable_setDesc, hashTable_advanceClock,
                    clockHand_setDesc]
                  simpa using hrm1
              · cases h
            · rename_i hd
              cases h
              -- clean eviction
              refine ⟨rfl, hlen.trans hlen.symm, rfl, hh1, ?_⟩
              refine ⟨hnd', hrng', ?_, ?_⟩
              · intro g hg hgne
                have hgne' : g ≠ (st.clockHand + 1) % st.numBufs := by simpa using hgne
                constructor
                · intro hv'
                  simp only [hashTable_advanceClock, descAt_advanceClock] at hv' ⊢
                  rw [hrm2 g hgne']
                  exact (hInv.2.2 g hg).1 hv'
                · intro hv'
                  simp only [hashTable_advanceClock, descAt_advanceClock] at hv' ⊢
                  rw [hrm2 g hgne']
                  exact (hInv.2.2 g hg).2 hv'
              · simp only [hashTable_advanceClock]
                simpa using hrm1
    · rename_i hv
      cases h
      -- invalid frame found on sight
      refine ⟨rfl, rfl, rfl, hh1, ?_⟩
      refine ⟨hInv.1, hInv.2.1, ?_, ?_⟩
      · intro g hg hgne
        exact hInv.2.2 g hg
      · exact (hInv.2.2 _ hh1).2 (by simpa using hv)

/-- A successful `allocBuf` preserves the invariant and returns an in-range,
invalid (cleared) frame. -/
theorem allocBuf_ok_inv {st : BufState} {wOk : Bool} {f : FrameId}
    {st1 : BufState} {tr : List FOp}
    (hInv : Inv st) (hN : 0 < st.numBufs)
    (hlen : st.bufDescTable.length = st.numBufs)
    (h : allocBuf st wOk = Res.ok f st1 tr) :
    Inv st1 ∧ st1.numBufs = st.numBufs ∧
    st1.bufDescTable.length = st.bufDescTable.length ∧
    st1.bufPool = st.bufPool ∧
    f < st.numBufs ∧ (st1.descAt f).valid = false := by
  unfold allocBuf at h
  cases hg : allocBufGo wOk (st.numBufs + 1) st [] 0 with
  | found s t a =>
    rw [hg] at h
    injection h with h1 h2 h3
    subst h1
    subst h2
    obtain ⟨e1, e2, e3, e4, snd, srng, sfr, shand⟩ :=
      allocBufGo_found_inv wOk _ st [] 0 s t a hInv hN hlen hg
    have hslen : s.bufDescTable.length = s.numBufs := by rw [e2, hlen, e1]
    refine ⟨⟨snd, ?_, ?_⟩, e1, by simpa using e2, by simpa using e3, e1 ▸ e4,
      descAt_setDesc_clear_valid _ _⟩
    · intro e he
      simp only [hashTable_setDesc] at he
      simp only [numBufs_setDesc, e1]
      exact srng e he
    · intro g hg'
      simp only [numBufs_setDesc, e1] at hg'
      by_cases hgs : g = s.clockHand
      · subst hgs
        rw [descAt_setDesc_self _ _ _ (by rw [hslen, e1]; exact e4)]
        refine ⟨fun hv => Bool.noConfusion hv, fun _ => ?_⟩
        simpa using shand
      · rw [descAt_setDesc_ne _ _ _ _ hgs]
        simp only [hashTable_setDesc]
        exact sfr g hg' hgs
  | exhausted s t a => rw [hg] at h; cases h
  | fail e s t => rw [hg] at h; cases h

/-- Admitting a page into a free in-range frame with an unmapped key
preserves the invariant. -/
theorem installState_inv {stA : BufState} {fid : FileId} {pno : PageId}
    {f : FrameId}
    (hInv : Inv stA) (hlen : stA.bufDescTable.length = stA.numBufs)
    (hf : f < stA.numBufs) (hval : (stA.descAt f).valid = false)
    (hno : htLookup stA.hashTable (some fid, pno) = none) :
    Inv (installState stA fid pno f) := by
  obtain ⟨hnd, hrng, hfr⟩ := hInv
  have hkey : ((some fid : Option FileId), pno) ∉ stA.hashTable.map Prod.fst := by
    intro hmem
    rcases List.mem_map.mp hmem with ⟨e, he, hek⟩
    exact (htLookup_eq_none_iff _ _).mp hno e he hek
  have hdesc : (installState stA fid pno f).descAt f = BufDesc.Set fid pno := by
    simp [installState, BufState.descAt, List.getD_eq_getElem?_getD,
      List.getElem?_set_self' , hlen ▸ hf]
  refine ⟨?_, ?_, ?_⟩
  · rw [installState, List.map_cons, List.nodup_cons]
    exact ⟨hkey, hnd⟩
  · intro e he
    rcases List.mem_cons.mp he with he | he
    · rw [he]
      exact hf
    · exact hrng e he
  · intro g hg'
    by_cases hgf : g = f
    · subst hgf
      rw [hdesc]
      constructor
      · intro _
        have hempty : entriesTo stA.hashTable g = [] := (hfr g hg').2 hval
        simp only [installState]
        rw [entriesTo_cons]
        simp [hempty, BufDesc.Set]
      · intro hvf
        cases hvf
    · have hdg : (installState stA fid pno f).descAt g = stA.descAt g :=
        descAt_setDesc_ne stA f g (BufDesc.Set fid pno) hgf
      rw [hdg]
      have hfg : ¬ (f = g) := fun h => hgf h.symm
      have hcons : entriesTo (installState stA fid pno f).hashTable g =
          entriesTo stA.hashTable g := by
        simp only [installState]
        rw [entriesTo_cons, if_neg (by simpa using hfg)]
      rw [hcons]
      exact hfr g hg'

/-- The state left by flushing frame `i`: its own key removed from the table
and its descriptor cleared (buffer.cpp lines 191–197, and the resident branch
of `disposePage`). -/
def flushFrameState (st : BufState) (i : Nat) : BufState :=
  { numBufs := st.numBufs,
    bufDescTable := (st.bufDescTable.set i BufDesc.Clear),
    bufPool := st.bufPool,
    hashTable := (st.hashTable.filter
      (fun e => decide (e.1 ≠ ((st.descAt i).file, (st.descAt i).pageNo)))),
    clockHand := st.clockHand }

@[simp] theorem hashTable_flushFrameState (st : BufState) (i : Nat) :
    (flushFrameState st i).hashTable =
      st.hashTable.filter
        (fun e => decide (e.1 ≠ ((st.descAt i).file, (st.descAt i).pageNo))) := rfl

@[simp] theorem numBufs_flushFrameState (st : BufState) (i : Nat) :
    (flushFrameState st i).numBufs = st.numBufs := rfl

@[simp] theorem bufPool_flushFrameState (st : BufState) (i : Nat) :
    (flushFrameState st i).bufPool = st.bufPool := rfl

@[simp] theorem clockHand_flushFrameState (st : BufState) (i : Nat) :
    (flushFrameState st i).clockHand = st.clockHand := rfl

@[simp] theorem descTable_length_flushFrameState (st : BufState) (i : Nat) :
    (flushFrameState st i).bufDescTable.length = st.bufDescTable.length := by
  simp [flushFrameState]

theorem descAt_flushFrameState_self (st : BufState) (i : Nat)
    (h : i < st.bufDescTable.length) :
    (flushFrameState st i).descAt i = BufDesc.Clear := by
  simp [flushFrameState, BufState.descAt, List.getD_eq_getElem?_getD,
    List.getElem?_set_self' , h]

theorem descAt_flushFrameState_ne (st : BufState) (i g : Nat) (h : g ≠ i) :
    (flushFrameState st i).descAt g = st.descAt g :=
  descAt_setDesc_ne st i g BufDesc.Clear h

/-- Flushing a valid frame — removing its own key and clearing its
descriptor — preserves the invariant. -/
theorem inv_flush_frame {st : BufState} {i : Nat}
    (hInv : Inv st) (hlen : st.bufDescTable.length = st.numBufs)
    (hi : i < st.numBufs) (hval : (st.descAt i).valid = true) :
    Inv (flushFrameState st i) := by
  obtain ⟨hnd, hrng, hfr⟩ := hInv
  have hsing := (hfr i hi).1 hval
  obtain ⟨hrm1, hrm2⟩ := entriesTo_remove_key hnd hsing
  refine ⟨hnd.sublist ((List.filter_sublist _).map Prod.fst), ?_, ?_⟩
  · intro e he
    simp only [hashTable_flushFrameState] at he
    simp only [numBufs_flushFrameState]
    exact hrng e (List.mem_filter.mp he).1
  · intro g hg'
    simp only [numBufs_flushFrameState] at hg'
    by_cases hgi : g = i
    · subst hgi
      rw [descAt_flushFrameState_self st g (hlen ▸ hg')]
      exact ⟨fun hv => Bool.noConfusion hv, fun _ => hrm1⟩
    · rw [descAt_flushFrameState_ne st i g hgi]
      simp only [hashTable_flushFrameState]
      rw [hrm2 g hgi]
      exact hfr g hg'

@[simp] theorem bufDescTable_setDesc (st : BufState) (f : Nat) (d : BufDesc) :
    (st.setDesc f d).bufDescTable = st.bufDescTable.set f d := rfl

/-- The invariant only looks at the capacity, descriptor table and hash
table; it transports across states agreeing on those. -/
theorem inv_of_components {st st' : BufState}
    (hN : st'.numBufs = st.numBufs)
    (hdt : st'.bufDescTable = st.bufDescTable)
    (hht : st'.hashTable = st.hashTable)
    (hInv : Inv st) : Inv st' := by
  obtain ⟨hnd, hrng, hfr⟩ := hInv
  have hdesc : ∀ g, st'.descAt g = st.descAt g := by
    intro g
    simp [BufState.descAt, hdt]
  refine ⟨by rw [hht]; exact hnd, ?_, ?_⟩
  · intro e he
    rw [hN]
    exact hrng e (hht ▸ he)
  · intro g hg'
    rw [hN] at hg'
    rw [hdesc g, hht]
    exact hfr g hg'

/-- A hash-table hit means the frame is in range and valid, and the
descriptor's identity is the looked-up key. -/
theorem valid_of_htLookup {st : BufState} {k : HKey} {f : FrameId}
    (hInv : Inv st) (hl : htLookup st.hashTable k = some f) :
    f < st.numBufs ∧ (st.descAt f).valid = true ∧
    ((st.descAt f).file, (st.descAt f).pageNo) = k := by
  have hmem := mem_of_htLookup hl
  have hfN : f < st.numBufs := hInv.2.1 _ hmem
  have hment : (k, f) ∈ entriesTo st.hashTable f :=
    List.mem_filter.mpr ⟨hmem, by simp⟩
  cases hv : (st.descAt f).valid with
  | false =>
    rw [(hInv.2.2 f hfN).2 hv] at hment
    simp at hment
  | true =>
    have hsing := (hInv.2.2 f hfN).1 hv
    rw [hsing] at hment
    have hk := List.mem_singleton.mp hment
    exact ⟨hfN, rfl, ((Prod.ext_iff.mp hk).1).symm⟩

/-- A successful `readPage` is either a hit (bump refbit and pin) or a miss
(a successful `allocBuf` followed by installing the page). -/
theorem readPage_ok_shape {st : BufState} {fid : FileId} {pno : PageId}
    {readOk wOk : Bool} {f : FrameId} {st1 : BufState} {tr : List FOp}
    (h : readPage st fid pno readOk wOk = Res.ok f st1 tr) :
    (htLookup st.hashTable (some fid, pno) = some f ∧
      st1 = st.setDesc f { st.descAt f with
        refbit := true
        pinCnt := (st.descAt f).pinCnt + 1 } ∧
      tr = []) ∨
    (htLookup st.hashTable (some fid, pno) = none ∧ readOk = true ∧
      ∃ stA tA, allocBuf st wOk = Res.ok f stA tA ∧
        htLookup stA.hashTable (some fid, pno) = none ∧
        st1 = installState stA fid pno f ∧
        tr = tA ++ [FOp.readP (some fid) pno]) := by
  unfold readPage at h
  cases hl : htLookup st.hashTable (some fid, pno) with
  | some f0 =>
    rw [hl] at h
    simp only at h
    injection h with h1 h2 h3
    subst h1
    exact Or.inl ⟨rfl, h2.symm, h3.symm⟩
  | none =>
    rw [hl] at h
    cases hA : allocBuf st wOk with
    | err e sA tA => rw [hA] at h; cases h
    | ok fA sA tA =>
      rw [hA] at h
      simp only at h
      by_cases hro : readOk = true
      · rw [if_pos hro] at h
        split at h
        · cases h
        · rename_i t hins
          obtain ⟨hnoA, rfl⟩ := htInsert_some_eq hins
          injection h with h1 h2 h3
          subst h1
          exact Or.inr ⟨rfl, hro, sA, tA, rfl, hnoA, h2.symm, h3.symm⟩
      · rw [if_neg hro] at h
        cases h

/-- A successful `readPage` preserves well-formedness and the invariant. -/
theorem readPage_ok_inv {st : BufState} {fid : FileId} {pno : PageId}
    {readOk wOk : Bool} {f : FrameId} {st1 : BufState} {tr : List FOp}
    (hWF : WF st) (hInv : Inv st)
    (h : readPage st fid pno readOk wOk = Res.ok f st1 tr) :
    WF st1 ∧ Inv st1 := by
  obtain ⟨hN, hlen, hpool⟩ := hWF
  rcases readPage_ok_shape h with ⟨hl, rfl, rfl⟩ | ⟨hl, hro, sA, tA, hA, hnoA, rfl, rfl⟩
  · obtain ⟨hfN, hval, hkey⟩ := valid_of_htLookup hInv hl
    refine ⟨⟨hN, by simpa using hlen, by simpa using hpool⟩, ?_⟩
    exact inv_setDesc_same_identity hInv hlen hfN (by rw [hval]) rfl rfl
  · obtain ⟨hInvA, e1, e2, e3, e4, e5⟩ := allocBuf_ok_inv hInv hN hlen hA
    have hlenA : sA.bufDescTable.length = sA.numBufs := by rw [e2, hlen, e1]
    have hfA : f < sA.numBufs := by rw [e1]; exact e4
    refine ⟨⟨?_, ?_, ?_⟩, installState_inv hInvA hlenA hfA e5 hnoA⟩
    · simp [installState, e1, hN]
    · simp [installState, e2, hlen, e1]
    · simp [installState, e3, hpool, e1]

/-- A successful `unPinPage` preserves well-formedness and the invariant. -/
theorem unPinPage_ok_inv {st : BufState} {fid : FileId} {pno : PageId}
    {dirty : Bool} {st1 : BufState} {tr : List FOp}
    (hWF : WF st) (hInv : Inv st)
    (h : unPinPage st fid pno dirty = Res.ok () st1 tr) :
    WF st1 ∧ Inv st1 := by
  obtain ⟨hN, hlen, hpool⟩ := hWF
  unfold unPinPage at h
  cases hl : htLookup st.hashTable (some fid, pno) with
  | none =>
    rw [hl] at h
    injection h with _ h2 h3
    subst h2
    exact ⟨⟨hN, hlen, hpool⟩, hInv⟩
  | some f =>
    rw [hl] at h
    simp only at h
    split at h
    · cases h
    · injection h with _ h2 h3
      subst h2
      obtain ⟨hfN, hval, hkey⟩ := valid_of_htLookup hInv hl
      refine ⟨⟨hN, by simpa using hlen, by simpa using hpool⟩, ?_⟩
      exact inv_setDesc_same_identity hInv hlen hfN (by rw [hval]) rfl rfl

/-- A successful `allocPage` preserves well-formedness and the invariant. -/
theorem allocPage_ok_inv {st : BufState} {fid : FileId} {newPno : PageId}
    {wOk : Bool} {pnoR : PageId} {f : FrameId} {st1 : BufState} {tr : List FOp}
    (hWF : WF st) (hInv : Inv st)
    (h : allocPage st fid newPno wOk = Res.ok (pnoR, f) st1 tr) :
    WF st1 ∧ Inv st1 := by
  obtain ⟨hN, hlen, hpool⟩ := hWF
  obtain ⟨rfl, sA, tA, hA, hnoA, rfl, rfl⟩ := allocPage_ok_shape h
  obtain ⟨hInvA, e1, e2, e3, e4, e5⟩ := allocBuf_ok_inv hInv hN hlen hA
  have hlenA : sA.bufDescTable.length = sA.numBufs := by rw [e2, hlen, e1]
  have hfA : f < sA.numBufs := by rw [e1]; exact e4
  refine ⟨⟨?_, ?_, ?_⟩, installState_inv hInvA hlenA hfA e5 hnoA⟩
  · simp [installState, e1, hN]
  · simp [installState, e2, hlen, e1]
  · simp [installState, e3, hpool, e1]

/-- A completed `flushFile` scan preserves well-formedness and the
invariant. -/
theorem flushFileGo_ok_inv (fid : FileId) (wOk : Bool) :
    ∀ (fuel i : Nat) (st : BufState) (tr : List FOp)
      (st' : BufState) (tr' : List FOp),
    WF st → Inv st →
    flushFileGo fid wOk i fuel st tr = Res.ok () st' tr' →
    WF st' ∧ Inv st' := by
  intro fuel
  induction fuel with
  | zero =>
    intro i st tr st' tr' hWF hInv h
    simp only [flushFileGo] at h
    injection h with _ h2 h3
    subst h2
    exact ⟨hWF, hInv⟩
  | succ n ih =>
    intro i st tr st' tr' hWF hInv h
    obtain ⟨hN, hlen, hpool⟩ := hWF
    simp only [flushFileGo] at h
    split at h
    · cases h
    · split at h
      · rename_i hc1 hc2
        split at h
        · cases h
        · split at h
          · cases h
          · rename_i hpin hio
            have hiN : i < st.numBufs :=
              hlen ▸ valid_descAt_lt hc2.2
            by_cases hd : (st.descAt i).dirty = true
            · rw [if_pos hd, if_pos hd] at h
              split at h
              · cases h
              · rename_i t hrem
                have ht := htRemove_some_eq hrem
                subst ht
                have hXdesc : ((st.setDesc i { st.descAt i with dirty := false }).descAt i) =
                    { st.descAt i with dirty := false } :=
                  descAt_setDesc_self _ _ _ (hlen ▸ hiN)
                have hInvX : Inv (st.setDesc i { st.descAt i with dirty := false }) :=
                  inv_setDesc_same_identity hInv hlen hiN rfl rfl rfl
                have hvalX : ((st.setDesc i { st.descAt i with dirty := false }).descAt i).valid = true := by
                  rw [hXdesc]
                  exact hc2.2
                have hInvFF : Inv (flushFrameState (st.setDesc i { st.descAt i with dirty := false }) i) :=
                  inv_flush_frame hInvX (by simpa using hlen) (by simpa using hiN) hvalX
                refine ih (i + 1) _ _ _ _ ⟨by simpa using hN, ?_, ?_⟩ ?_ h
                · simp [hlen]
                · simpa using hpool
                · refine inv_of_components ?_ ?_ ?_ hInvFF
                  · exact rfl
                  · exact rfl
                  · simp only [hashTable_setDesc, hashTable_flushFrameState, hXdesc]
                    rw [hc2.1]
            · rw [if_neg hd, if_neg hd] at h
              split at h
              · cases h
              · rename_i t hrem
                have ht := htRemove_some_eq hrem
                subst ht
                have hInvFF : Inv (flushFrameState st i) :=
                  inv_flush_frame hInv hlen hiN hc2.2
                refine ih (i + 1) _ _ _ _ ⟨by simpa using hN, ?_, ?_⟩ ?_ h
                · simp [hlen]
                · simpa using hpool
                · refine inv_of_components ?_ ?_ ?_ hInvFF
                  · exact rfl
                  · exact rfl
                  · simp only [hashTable_setDesc, hashTable_flushFrameState]
                    rw [hc2.1]
      · exact ih (i + 1) _ _ _ _ ⟨hN, hlen, hpool⟩ hInv h

/-- A completed `flushFile` preserves well-formedness and the invariant. -/
theorem flushFile_ok_inv {st : BufState} {fid : FileId} {wOk : Bool}
    {st1 : BufState} {tr : List FOp}
    (hWF : WF st) (hInv : Inv st)
    (h : flushFile st fid wOk = Res.ok () st1 tr) :
    WF st1 ∧ Inv st1 :=
  flushFileGo_ok_inv fid wOk st.numBufs 0 st [] st1 tr hWF hInv h

/-- A successful `disposePage` preserves well-formedness and the
invariant. -/
theorem disposePage_ok_inv {st : BufState} {fid : FileId} {pno : PageId}
    {wOk : Bool} {st1 : BufState} {tr : List FOp}
    (hWF : WF st) (hInv : Inv st)
    (h : disposePage st fid pno wOk = Res.ok () st1 tr) :
    WF st1 ∧ Inv st1 := by
  obtain ⟨hN, hlen, hpool⟩ := hWF
  cases hl : htLookup st.hashTable (some fid, pno) with
  | none =>
    unfold disposePage at h
    rw [hl] at h
    injection h with _ h2 h3
    subst h2
    exact ⟨⟨hN, hlen, hpool⟩, hInv⟩
  | some f =>
    obtain ⟨hfN, hval, hkey⟩ := valid_of_htLookup hInv hl
    have hcopy := h
    unfold disposePage at hcopy
    rw [hl] at hcopy
    simp only at hcopy
    split at hcopy
    · cases hcopy
    · rename_i hio
      have h2 : (st.descAt f).dirty = false ∨ wOk = true := by
        by_cases hd : (st.descAt f).dirty = true
        · right
          cases hw : wOk with
          | true => rfl
          | false => exact absurd ⟨hd, hw⟩ hio
        · left
          simpa using hd
      have hres := disposePage_resident hl h2
      have hst1 : Res.ok () st1 tr = _ := h.symm.trans hres
      injection hst1 with _ h2' h3'
      subst h2'
      by_cases hd : (st.descAt f).dirty = true
      · rw [if_pos hd]
        have hXdesc : ((st.setDesc f { st.descAt f with dirty := false }).descAt f) =
            { st.descAt f with dirty := false } :=
          descAt_setDesc_self _ _ _ (hlen ▸ hfN)
        have hInvX : Inv (st.setDesc f { st.descAt f with dirty := false }) :=
          inv_setDesc_same_identity hInv hlen hfN rfl rfl rfl
        have hvalX : ((st.setDesc f { st.descAt f with dirty := false }).descAt f).valid = true := by
          rw [hXdesc]
          exact hval
        have hInvFF : Inv (flushFrameState (st.setDesc f { st.descAt f with dirty := false }) f) :=
          inv_flush_frame hInvX (by simpa using hlen) (by simpa using hfN) hvalX
        constructor
        · exact ⟨by simpa using hN, by simp [hlen], by simpa using hpool⟩
        · refine inv_of_components ?_ ?_ ?_ hInvFF
          · exact rfl
          · exact rfl
          · simp only [hashTable_setDesc, hashTable_flushFrameState, hXdesc]
            rw [show (({ st.descAt f with dirty := false } : BufDesc).file,
                ({ st.descAt f with dirty := false } : BufDesc).pageNo) =
                ((st.descAt f).file, (st.descAt f).pageNo) from rfl, hkey]
      · rw [if_neg hd]
        have hInvFF : Inv (flushFrameState st f) :=
          inv_flush_frame hInv hlen hfN hval
        constructor
        · exact ⟨by simpa using hN, by simp [hlen], by simpa using hpool⟩
        · refine inv_of_components ?_ ?_ ?_ hInvFF
          · exact rfl
          · exact rfl
          · simp only [hashTable_setDesc, hashTable_flushFrameState]
            rw [hkey]

instance (st : BufState) : Decidable (WF st) := by
  unfold WF
  infer_instance

instance (st : BufState) : Decidable (Inv st) :=
  decidable_of_iff
    ((st.hashTable.map Prod.fst).Nodup ∧
      (∀ e ∈ st.hashTable, e.2 < st.numBufs) ∧
      (∀ f ∈ List.range st.numBufs,
        ((st.descAt f).valid = true →
          entriesTo st.hashTable f = [(((st.descAt f).file, (st.descAt f).pageNo), f)]) ∧
        ((st.descAt f).valid = false → entriesTo st.hashTable f = [])))
    (by
      unfold Inv
      constructor
      · rintro ⟨a, b, c⟩
        exact ⟨a, b, fun f hf => c f (List.mem_range.mpr hf)⟩
      · rintro ⟨a, b, c⟩
        exact ⟨a, b, fun f hf => c f (List.mem_range.mp hf)⟩)

/-- C4: every public operation that completes normally preserves the §3.2
invariant: a frame is valid iff the page table holds exactly one entry
mapping to it — the entry for its own file and page — and no key maps to two
frames (together with well-formedness of the table sizes). -/
theorem claim4_inv_preserved (st : BufState) (hWF : WF st) (hInv : Inv st) :
    (∀ fid pno readOk wOk f st1 tr,
      readPage st fid pno readOk wOk = Res.ok f st1 tr → WF st1 ∧ Inv st1) ∧
    (∀ fid newPno wOk pnoR f st1 tr,
      allocPage st fid newPno wOk = Res.ok (pnoR, f) st1 tr → WF st1 ∧ Inv st1) ∧
    (∀ fid pno d st1 tr,
      unPinPage st fid pno d = Res.ok () st1 tr → WF st1 ∧ Inv st1) ∧
    (∀ fid wOk st1 tr,
      flushFile st fid wOk = Res.ok () st1 tr → WF st1 ∧ Inv st1) ∧
    (∀ fid pno wOk st1 tr,
      disposePage st fid pno wOk = Res.ok () st1 tr → WF st1 ∧ Inv st1) :=
  ⟨fun _ _ _ _ _ _ _ h => readPage_ok_inv ⟨hWF.1, hWF.2.1, hWF.2.2⟩ hInv h,
   fun _ _ _ _ _ _ _ h => allocPage_ok_inv hWF hInv h,
   fun _ _ _ _ _ h => unPinPage_ok_inv hWF hInv h,
   fun _ _ _ _ h => flushFile_ok_inv hWF hInv h,
   fun _ _ _ _ _ h => disposePage_ok_inv hWF hInv h⟩

/-- The state after `readPage demoState 3 7 true true`: a miss that installs
page 7 of file 3 in frame 1. -/
def w4post : BufState :=
  { numBufs := 2,
    bufDescTable :=
      [ { file := some 3, pageNo := 9, pinCnt := 2, dirty := true, refbit := false, valid := true },
        { file := some 3, pageNo := 7, pinCnt := 1, dirty := false, refbit := false, valid := true } ],
    bufPool := [9, 7],
    hashTable := [((some 3, 7), 1), ((some 3, 9), 0)],
    clockHand := 1 }

/-- C4 witness: `demoState` satisfies the invariant, a concrete `readPage`
completes normally, and the invariant holds afterwards. -/
theorem claim4_inv_preserved_witness : WF w4post ∧ Inv w4post :=
  (claim4_inv_preserved demoState (by decide) (by decide)).1 3 7 true true 1
    w4post [FOp.readP (some 3) 7] (by decide)

/-- One clock advance decreases the cyclic distance to a distinct target by
exactly one. -/
theorem cyclicStep {N h j : Nat} (hN : 0 < N) (hh : h < N) (hj : j < N)
    (hne : h ≠ j) :
    (j + N - (h + 1) % N) % N + 1 = (j + N - h) % N := by
  rcases Nat.lt_or_ge (h + 1) N with hlt | hge
  · rw [Nat.mod_eq_of_lt hlt]
    rcases Nat.lt_or_ge h j with hcase | hcase
    · have e1 : j + N - h = (j - h) + N := by omega
      have e2 : j + N - (h + 1) = (j - h - 1) + N := by omega
      rw [e1, e2, Nat.add_mod_right, Nat.add_mod_right,
        Nat.mod_eq_of_lt (by omega), Nat.mod_eq_of_lt (by omega)]
      omega
    · have hgt : j < h := by omega
      rw [Nat.mod_eq_of_lt (by omega), Nat.mod_eq_of_lt (by omega)]
      omega
  · have hEq : h + 1 = N := by omega
    have hjlt : j < h := by omega
    rw [hEq, Nat.mod_self]
    have e1 : j + N - 0 = j + N := by omega
    rw [e1, Nat.add_mod_right, Nat.mod_eq_of_lt hj,
      Nat.mod_eq_of_lt (by omega)]
    omega

/-- When some frame is invalid and disk writes succeed, the CLOCK scan breaks
with `found` given fuel at least the cyclic distance to that frame plus
one. -/
theorem allocBufGo_finds :
    ∀ (fuel : Nat) (st : BufState) (tr : List FOp) (adv : Nat) (j : Nat),
    Inv st → 0 < st.numBufs → st.bufDescTable.length = st.numBufs →
    j < st.numBufs → (st.descAt j).valid = false →
    (j + st.numBufs - (st.clockHand + 1) % st.numBufs) % st.numBufs + 1 ≤ fuel →
    ∃ st' tr' adv', allocBufGo true fuel st tr adv = ScanRes.found st' tr' adv' := by
  intro fuel
  induction fuel with
  | zero =>
    intro st tr adv j _ _ _ _ _ hfuel
    exact absurd hfuel (Nat.not_succ_le_zero _)
  | succ n ih =>
    intro st tr adv j hInv hN hlen hj hjv hfuel
    have hh1 : (st.clockHand + 1) % st.numBufs < st.numBufs := Nat.mod_lt _ hN
    simp only [allocBufGo, descAt_advanceClock, clockHand_advanceClock,
      hashTable_advanceClock]
    split
    · rename_i hv
      have hne : (st.clockHand + 1) % st.numBufs ≠ j := by
        intro hEq
        rw [hEq, hjv] at hv
        cases hv
      have hstep := cyclicStep hN hh1 hj hne
      split
      · rename_i hr
        refine ih _ tr (adv + 1) j ?_ ?_ ?_ ?_ ?_ ?_
        · exact inv_setDesc_same_identity (inv_advanceClock hInv) hlen hh1 rfl rfl rfl
        · simpa using hN
        · simpa using hlen
        · simpa using hj
        · rw [descAt_setDesc_ne _ _ _ _ (fun hEq => hne hEq.symm)]
          simpa using hjv
        · simp only [clockHand_setDesc, clockHand_advanceClock, numBufs_setDesc,
            numBufs_advanceClock]
          omega
      · rename_i hr
        split
        · rename_i hp
          refine ih _ tr (adv + 1) j (inv_advanceClock hInv) ?_ ?_ ?_ ?_ ?_
          · simpa using hN
          · simpa using hlen
          · simpa using hj
          · simpa using hjv
          · simp only [clockHand_advanceClock, numBufs_advanceClock]
            omega
        · rename_i hp
          have hsing := (hInv.2.2 _ hh1).1 hv
          have hmem := (mem_of_entriesTo_singleton hsing).1
          have hrsome := htRemove_of_lookup_isSome (htLookup_isSome_of_mem hmem)
          rw [hrsome]
          split
          · rename_i heq
            exact Option.noConfusion heq
          · split
            · split
              · exact ⟨_, _, _, rfl⟩
              · rename_i hw
                exact absurd trivial hw
            · exact ⟨_, _, _, rfl⟩
    · exact ⟨_, _, _, rfl⟩

@[simp] theorem hashTable_withPool (st : BufState) (p : List PageId) :
    ({ st with bufPool := p } : BufState).hashTable = st.hashTable := rfl

/-- A `readPage` miss with a successful disk read produces exactly the
installed state on top of the `allocBuf` result. -/
theorem readPage_miss_ok {st : BufState} {fid : FileId} {pno : PageId}
    {wOk : Bool} {f : FrameId} {stA : BufState} {tA : List FOp}
    (hmiss : htLookup st.hashTable (some fid, pno) = none)
    (hA : allocBuf st wOk = Res.ok f stA tA)
    (hnoA : htLookup stA.hashTable (some fid, pno) = none) :
    readPage st fid pno true wOk =
      Res.ok f (installState stA fid pno f) (tA ++ [FOp.readP (some fid) pno]) := by
  have hins : htInsert stA.hashTable ((some fid : Option FileId), pno) f =
      some (((some fid, pno), f) :: stA.hashTable) := by
    unfold htInsert
    rw [hnoA]
    rfl
  unfold readPage
  rw [hmiss, hA]
  simp only
  rw [if_pos trivial, hins]
  rfl

/-- C5: a `readPage` hit sets the frame's refbit, increments its pin count,
and returns the frame already holding the page; hence from a state where the
page is absent and some frame is free, two `readPage` calls in a row (with
working disk I/O) return the same frame and leave its pin count at 2. -/
theorem claim5_read_twice :
    (∀ (st : BufState) (fid : FileId) (pno : PageId) (f : FrameId)
        (readOk wOk : Bool),
      htLookup st.hashTable (some fid, pno) = some f →
      readPage st fid pno readOk wOk =
        Res.ok f (st.setDesc f { st.descAt f with
          refbit := true
          pinCnt := (st.descAt f).pinCnt + 1 }) []) ∧
    (∀ (st : BufState) (fid : FileId) (pno : PageId),
      WF st → Inv st →
      htLookup st.hashTable (some fid, pno) = none →
      (∃ j, j < st.numBufs ∧ (st.descAt j).valid = false) →
      ∃ f st1 tr st2,
        readPage st fid pno true true = Res.ok f st1 tr ∧
        readPage st1 fid pno true true = Res.ok f st2 [] ∧
        (st2.descAt f).pinCnt = 2) := by
  constructor
  · intro st fid pno f readOk wOk hl
    simp [readPage, hl]
  · rintro st fid pno hWF hInv hmiss ⟨j, hj, hjv⟩
    obtain ⟨hN, hlen, hpool⟩ := hWF
    have hD : (j + st.numBufs - (st.clockHand + 1) % st.numBufs) % st.numBufs + 1 ≤
        st.numBufs + 1 := by
      have := Nat.mod_lt (j + st.numBufs - (st.clockHand + 1) % st.numBufs) hN
      omega
    obtain ⟨sF, tF, aF, hgo⟩ :=
      allocBufGo_finds (st.numBufs + 1) st [] 0 j hInv hN hlen hj hjv hD
    have hA : allocBuf st true =
        Res.ok sF.clockHand (sF.setDesc sF.clockHand BufDesc.Clear) tF := by
      unfold allocBuf
      rw [hgo]
    obtain ⟨hInvA, e1, e2, e3, e4, e5⟩ := allocBuf_ok_inv hInv hN hlen hA
    have hnoA := allocBuf_lookup_none hmiss hA
    have h1 := readPage_miss_ok hmiss hA hnoA
    have hl2 : htLookup (installState (sF.setDesc sF.clockHand BufDesc.Clear)
        fid pno sF.clockHand).hashTable (some fid, pno) = some sF.clockHand := by
      simp [installState, htLookup]
    have h2 : readPage (installState (sF.setDesc sF.clockHand BufDesc.Clear)
        fid pno sF.clockHand) fid pno true true =
        Res.ok sF.clockHand
          ((installState (sF.setDesc sF.clockHand BufDesc.Clear) fid pno sF.clockHand).setDesc
            sF.clockHand
            { (installState (sF.setDesc sF.clockHand BufDesc.Clear) fid pno
                sF.clockHand).descAt sF.clockHand with
              refbit := true
              pinCnt := ((installState (sF.setDesc sF.clockHand BufDesc.Clear) fid pno
                sF.clockHand).descAt sF.clockHand).pinCnt + 1 }) [] := by
      simp [readPage, hl2]
    have hflen : sF.clockHand <
        (installState (sF.setDesc sF.clockHand BufDesc.Clear) fid pno
          sF.clockHand).bufDescTable.length := by
      simp only [installState, List.length_set]
      rw [e2, hlen]
      exact e4
    have hd1 : (installState (sF.setDesc sF.clockHand BufDesc.Clear) fid pno
        sF.clockHand).descAt sF.clockHand = BufDesc.Set fid pno := by
      simp [installState, BufState.descAt, List.getD_eq_getElem?_getD,
        List.getElem?_set_self' , by simpa [installState] using hflen]
    refine ⟨sF.clockHand, _, _, _, h1, h2, ?_⟩
    rw [descAt_setDesc_self _ _ _ hflen, hd1]
    rfl

/-- C5 witness: reading page 1 of file 5 twice in `demoState` (page absent,
frame 1 free) returns the same frame with pin count 2. -/
theorem claim5_read_twice_witness :
    ∃ f st1 tr st2,
      readPage demoState 5 1 true true = Res.ok f st1 tr ∧
      readPage st1 5 1 true true = Res.ok f st2 [] ∧
      (st2.descAt f).pinCnt = 2 :=
  claim5_read_twice.2 demoState 5 1 (by decide) (by decide) (by decide)
    ⟨1, by decide, by decide⟩

theorem cyclicA_self {N h : Nat} (hh : h < N) : (h + N - h) % N = 0 := by
  rw [show h + N - h = N from by omega, Nat.mod_self]

theorem cyclicA_eq_zero {N h f : Nat} (hh : h < N) (hf : f < N) :
    (f + N - h) % N = 0 ↔ f = h := by
  constructor
  · intro h0
    rcases Nat.lt_or_ge f h with hc | hc
    · rw [Nat.mod_eq_of_lt (by omega)] at h0
      omega
    · rw [show f + N - h = (f - h) + N from by omega, Nat.add_mod_right,
        Nat.mod_eq_of_lt (by omega)] at h0
      omega
  · intro hEq
    subst hEq
    exact cyclicA_self hh

theorem cyclicA_eq_one_mp {N h f : Nat} (hh : h < N) (hf : f < N)
    (h1 : (f + N - h) % N = 1) : f = (h + 1) % N := by
  rcases Nat.lt_or_ge (h + 1) N with hc | hc
  · rw [Nat.mod_eq_of_lt hc]
    rcases Nat.lt_or_ge f h with hx | hx
    · rw [Nat.mod_eq_of_lt (by omega)] at h1
      omega
    · rw [show f + N - h = (f - h) + N from by omega, Nat.add_mod_right,
        Nat.mod_eq_of_lt (by omega)] at h1
      omega
  · have hEq : h + 1 = N := by omega
    rw [hEq, Nat.mod_self]
    rcases Nat.lt_or_ge f h with hx | hx
    · rw [Nat.mod_eq_of_lt (by omega)] at h1
      omega
    · have hfh : f = h := by omega
      subst hfh
      rw [cyclicA_self hh] at h1
      exact absurd h1 (by decide)

theorem cyclicA_back {N h : Nat} (hN2 : 2 ≤ N) (hh : h < N) :
    (h + N - (h + 1) % N) % N = N - 1 := by
  rcases Nat.lt_or_ge (h + 1) N with hc | hc
  · rw [Nat.mod_eq_of_lt hc, show h + N - (h + 1) = N - 1 from by omega,
      Nat.mod_eq_of_lt (by omega)]
  · have hEq : h + 1 = N := by omega
    rw [hEq, Nat.mod_self, show h + N - 0 = (N - 1) + N from by omega,
      Nat.add_mod_right, Nat.mod_eq_of_lt (by omega)]

/-- CLOCK fairness scan lemma: in a pool of valid, unpinned frames in which
exactly the next `r` frames ahead of the hand carry a set refbit, the scan
breaks with `found` after exactly `r + 1` further advances. -/
theorem c8scan :
    ∀ (r fuel : Nat) (s : BufState) (tr : List FOp) (adv : Nat),
    Inv s → 0 < s.numBufs → s.bufDescTable.length = s.numBufs →
    s.clockHand < s.numBufs →
    r ≤ s.numBufs →
    (∀ f, f < s.numBufs → (s.descAt f).valid = true ∧ (s.descAt f).pinCnt = 0) →
    (∀ f, f < s.numBufs →
      ((s.descAt f).refbit = true ↔
        (((f + s.numBufs - s.clockHand) % s.numBufs = 0 ∧ r = s.numBufs) ∨
         (1 ≤ (f + s.numBufs - s.clockHand) % s.numBufs ∧
          (f + s.numBufs - s.clockHand) % s.numBufs ≤ r)))) →
    r + 1 ≤ fuel →
    ∃ st' tr', allocBufGo true fuel s tr adv = ScanRes.found st' tr' (adv + r + 1) := by
  intro r
  induction r with
  | zero =>
    intro fuel s tr adv hInv hN hlen hhand hr hvp hpat hfuel
    obtain ⟨fl, rfl⟩ : ∃ fl, fuel = fl + 1 := ⟨fuel - 1, by omega⟩
    have hh1 : (s.clockHand + 1) % s.numBufs < s.numBufs := Nat.mod_lt _ hN
    have hval1 := (hvp _ hh1).1
    have hpin1 := (hvp _ hh1).2
    have hrb : (s.descAt ((s.clockHand + 1) % s.numBufs)).refbit = false := by
      cases hx : (s.descAt ((s.clockHand + 1) % s.numBufs)).refbit with
      | false => rfl
      | true =>
        rcases (hpat _ hh1).mp hx with ⟨_, h0N⟩ | ⟨h1A, h0A⟩
        · omega
        · omega
    have hsing := (hInv.2.2 _ hh1).1 hval1
    have hmem := (mem_of_entriesTo_singleton hsing).1
    have hrsome := htRemove_of_lookup_isSome (htLookup_isSome_of_mem hmem)
    simp only [allocBufGo, descAt_advanceClock, clockHand_advanceClock,
      hashTable_advanceClock]
    rw [if_pos hval1, if_neg (by simp [hrb]), if_neg (by simp [hpin1]), hrsome]
    simp only
    by_cases hd : (s.descAt ((s.clockHand + 1) % s.numBufs)).dirty = true
    · rw [if_pos hd, if_pos trivial]
      exact ⟨_, _, rfl⟩
    · rw [if_neg hd]
      exact ⟨_, _, rfl⟩
  | succ r' ih =>
    intro fuel s tr adv hInv hN hlen hhand hr hvp hpat hfuel
    obtain ⟨fl, rfl⟩ : ∃ fl, fuel = fl + 1 := ⟨fuel - 1, by omega⟩
    have hh1 : (s.clockHand + 1) % s.numBufs < s.numBufs := Nat.mod_lt _ hN
    have hval1 := (hvp _ hh1).1
    have hrb : (s.descAt ((s.clockHand + 1) % s.numBufs)).refbit = true := by
      apply (hpat _ hh1).mpr
      rcases Nat.lt_or_ge (s.clockHand + 1) s.numBufs with hc | hc
      · have hA1 : ((s.clockHand + 1) % s.numBufs + s.numBufs - s.clockHand) %
            s.numBufs = 1 := by
          rw [Nat.mod_eq_of_lt hc,
            show s.clockHand + 1 + s.numBufs - s.clockHand = 1 + s.numBufs from by omega,
            Nat.add_mod_right, Nat.mod_eq_of_lt (by omega)]
        right
        rw [hA1]
        omega
      · have hEq : s.clockHand + 1 = s.numBufs := by omega
        rcases Nat.lt_or_ge 1 s.numBufs with hc2 | hc2
        · have hA1 : ((s.clockHand + 1) % s.numBufs + s.numBufs - s.clockHand) %
              s.numBufs = 1 := by
            rw [hEq, Nat.mod_self,
              show 0 + s.numBufs - s.clockHand = 1 from by omega,
              Nat.mod_eq_of_lt (by omega)]
          right
          rw [hA1]
          omega
        · have hN1 : s.numBufs = 1 := by omega
          have hA0 : ((s.clockHand + 1) % s.numBufs + s.numBufs - s.clockHand) %
              s.numBufs = 0 := by
            rw [hEq, Nat.mod_self,
              show 0 + s.numBufs - s.clockHand = 1 from by omega, hN1,
              Nat.mod_self]
          left
          rw [hA0]
          omega
    have hlen1 : (s.clockHand + 1) % s.numBufs < s.bufDescTable.length := by
      rw [hlen]
      exact hh1
    have hInv1 : Inv ((advanceClock s).setDesc ((s.clockHand + 1) % s.numBufs)
        { s.descAt ((s.clockHand + 1) % s.numBufs) with refbit := false }) :=
      inv_setDesc_same_identity (inv_advanceClock hInv) hlen hh1 rfl rfl rfl
    have hdesc1 : ∀ g, g ≠ (s.clockHand + 1) % s.numBufs →
        ((advanceClock s).setDesc ((s.clockHand + 1) % s.numBufs)
          { s.descAt ((s.clockHand + 1) % s.numBufs) with refbit := false }).descAt g =
          s.descAt g := by
      intro g hg
      rw [descAt_setDesc_ne _ _ _ _ hg]
      rfl
    have hdescSelf : ((advanceClock s).setDesc ((s.clockHand + 1) % s.numBufs)
        { s.descAt ((s.clockHand + 1) % s.numBufs) with refbit := false }).descAt
          ((s.clockHand + 1) % s.numBufs) =
        { s.descAt ((s.clockHand + 1) % s.numBufs) with refbit := false } :=
      descAt_setDesc_self _ _ _ hlen1
    have hvp1 : ∀ f, f < ((advanceClock s).setDesc ((s.clockHand + 1) % s.numBufs)
        { s.descAt ((s.clockHand + 1) % s.numBufs) with refbit := false }).numBufs →
        (((advanceClock s).setDesc ((s.clockHand + 1) % s.numBufs)
          { s.descAt ((s.clockHand + 1) % s.numBufs) with refbit := false }).descAt f).valid = true ∧
        (((advanceClock s).setDesc ((s.clockHand + 1) % s.numBufs)
          { s.descAt ((s.clockHand + 1) % s.numBufs) with refbit := false }).descAt f).pinCnt = 0 := by
      intro f hf
      simp only [numBufs_setDesc, numBufs_advanceClock] at hf
      by_cases hfh1 : f = (s.clockHand + 1) % s.numBufs
      · subst hfh1
        rw [hdescSelf]
        exact ⟨(hvp _ hf).1, (hvp _ hf).2⟩
      · rw [hdesc1 f hfh1]
        exact hvp f hf
    have hpat1 : ∀ f, f < ((advanceClock s).setDesc ((s.clockHand + 1) % s.numBufs)
        { s.descAt ((s.clockHand + 1) % s.numBufs) with refbit := false }).numBufs →
        ((((advanceClock s).setDesc ((s.clockHand + 1) % s.numBufs)
          { s.descAt ((s.clockHand + 1) % s.numBufs) with refbit := false }).descAt f).refbit = true ↔
          (((f + ((advanceClock s).setDesc ((s.clockHand + 1) % s.numBufs)
              { s.descAt ((s.clockHand + 1) % s.numBufs) with refbit := false }).numBufs -
              ((advanceClock s).setDesc ((s.clockHand + 1) % s.numBufs)
              { s.descAt ((s.clockHand + 1) % s.numBufs) with refbit := false }).clockHand) %
              ((advanceClock s).setDesc ((s.clockHand + 1) % s.numBufs)
              { s.descAt ((s.clockHand + 1) % s.numBufs) with refbit := false }).numBufs = 0 ∧
            r' = ((advanceClock s).setDesc ((s.clockHand + 1) % s.numBufs)
              { s.descAt ((s.clockHand + 1) % s.numBufs) with refbit := false }).numBufs) ∨
           (1 ≤ (f + ((advanceClock s).setDesc ((s.clockHand + 1) % s.numBufs)
              { s.descAt ((s.clockHand + 1) % s.numBufs) with refbit := false }).numBufs -
              ((advanceClock s).setDesc ((s.clockHand + 1) % s.numBufs)
              { s.descAt ((s.clockHand + 1) % s.numBufs) with refbit := false }).clockHand) %
              ((advanceClock s).setDesc ((s.clockHand + 1) % s.numBufs)
              { s.descAt ((s.clockHand + 1) % s.numBufs) with refbit := false }).numBufs ∧
            (f + ((advanceClock s).setDesc ((s.clockHand + 1) % s.numBufs)
              { s.descAt ((s.clockHand + 1) % s.numBufs) with refbit := false }).numBufs -
              ((advanceClock s).setDesc ((s.clockHand + 1) % s.numBufs)
              { s.descAt ((s.clockHand + 1) % s.numBufs) with refbit := false }).clockHand) %
              ((advanceClock s).setDesc ((s.clockHand + 1) % s.numBufs)
              { s.descAt ((s.clockHand + 1) % s.numBufs) with refbit := false }).numBufs ≤ r'))) := by
      intro f hf
      simp only [numBufs_setDesc, numBufs_advanceClock,
        clockHand_setDesc, clockHand_advanceClock] at hf ⊢
      by_cases hfh1 : f = (s.clockHand + 1) % s.numBufs
      · subst hfh1
        rw [hdescSelf]
        simp only [cyclicA_self hh1]
        constructor
        · intro hx
          exact absurd hx (by simp)
        · intro hx
          rcases hx with ⟨_, hrx⟩ | ⟨h1x, h0x⟩
          · omega
          · omega
      · rw [hdesc1 f hfh1]
        have hpatf := hpat f hf
        by_cases hfh : f = s.clockHand
        · subst hfh
          have hN2 : 2 ≤ s.numBufs := by
            by_contra hc
            have hN1 : s.numBufs = 1 := by omega
            apply hfh1
            omega
          rw [hpatf, cyclicA_self hhand, cyclicA_back hN2 hhand]
          omega
        · have hstep := cyclicStep hN hhand hf (fun hEq => hfh hEq.symm)
          have hAne0 : (f + s.numBufs - s.clockHand) % s.numBufs ≠ 0 :=
            fun h0 => hfh ((cyclicA_eq_zero hhand hf).mp h0)
          have hAne1 : (f + s.numBufs - s.clockHand) % s.numBufs ≠ 1 :=
            fun h1p => hfh1 (cyclicA_eq_one_mp hhand hf h1p)
          have hBne0 : (f + s.numBufs - (s.clockHand + 1) % s.numBufs) %
              s.numBufs ≠ 0 :=
            fun h0 => hfh1 ((cyclicA_eq_zero hh1 hf).mp h0)
          rw [hpatf]
          omega
    obtain ⟨st', tr', hres⟩ := ih fl
      ((advanceClock s).setDesc ((s.clockHand + 1) % s.numBufs)
        { s.descAt ((s.clockHand + 1) % s.numBufs) with refbit := false })
      tr (adv + 1) hInv1 (by simpa using hN) (by simpa using hlen)
      (by simpa using hh1) (by simp only [numBufs_setDesc, numBufs_advanceClock]; omega)
      hvp1 hpat1 (by omega)
    refine ⟨st', tr', ?_⟩
    simp only [allocBufGo, descAt_advanceClock, clockHand_advanceClock]
    rw [if_pos hval1, if_pos hrb, hres]
    congr 1
    omega

/-- C8: from a pool in which every frame is valid, unpinned and has
`refbit = true`, one victim selection performs exactly `numBufs + 1`
clock-hand advances before breaking with a selected frame; and the
constructor initialises the hand to `numBufs - 1`, so the first advance
yields frame 0. -/
theorem claim8_clock_fairness :
    (∀ (st : BufState), WF st → Inv st → st.clockHand < st.numBufs →
      (∀ f, f < st.numBufs → (st.descAt f).valid = true ∧
        (st.descAt f).pinCnt = 0 ∧ (st.descAt f).refbit = true) →
      ∃ st' tr', allocBufGo true (st.numBufs + 1) st [] 0 =
        ScanRes.found st' tr' (st.numBufs + 1)) ∧
    (∀ n, (mkBufMgr n).clockHand = n - 1) ∧
    (∀ n, 0 < n → (advanceClock (mkBufMgr n)).clockHand = 0) := by
  refine ⟨?_, fun n => rfl, ?_⟩
  · intro st hWF hInv hhand hall
    have hpat0 : ∀ f, f < st.numBufs →
        ((st.descAt f).refbit = true ↔
          (((f + st.numBufs - st.clockHand) % st.numBufs = 0 ∧
            st.numBufs = st.numBufs) ∨
           (1 ≤ (f + st.numBufs - st.clockHand) % st.numBufs ∧
            (f + st.numBufs - st.clockHand) % st.numBufs ≤ st.numBufs))) := by
      intro f hf
      constructor
      · intro _
        rcases Nat.eq_zero_or_pos ((f + st.numBufs - st.clockHand) % st.numBufs)
          with h0 | h0
        · exact Or.inl ⟨h0, rfl⟩
        · refine Or.inr ⟨h0, ?_⟩
          have := Nat.mod_lt (f + st.numBufs - st.clockHand) hWF.1
          omega
      · intro _
        exact (hall f hf).2.2
    obtain ⟨st', tr', hres⟩ := c8scan st.numBufs (st.numBufs + 1) st [] 0 hInv
      hWF.1 hWF.2.1 hhand le_rfl
      (fun f hf => ⟨(hall f hf).1, (hall f hf).2.1⟩) hpat0 (le_refl _)
    rw [Nat.zero_add] at hres
    exact ⟨st', tr', hres⟩
  · intro n hn
    simp [advanceClock, mkBufMgr, Nat.sub_add_cancel hn, Nat.mod_self]

/-- A three-frame pool that is entirely valid, unpinned, and referenced. -/
def w8state : BufState :=
  { numBufs := 3,
    bufDescTable :=
      [ { file := some 1, pageNo := 1, pinCnt := 0, dirty := false, refbit := true, valid := true },
        { file := some 1, pageNo := 2, pinCnt := 0, dirty := false, refbit := true, valid := true },
        { file := some 1, pageNo := 3, pinCnt := 0, dirty := false, refbit := true, valid := true } ],
    bufPool := [1, 2, 3],
    hashTable := [((some 1, 1), 0), ((some 1, 2), 1), ((some 1, 3), 2)],
    clockHand := 2 }

/-- C8 witness: in the three-frame all-referenced pool, victim selection
takes exactly four advances. -/
theorem claim8_clock_fairness_witness :
    ∃ st' tr', allocBufGo true (w8state.numBufs + 1) w8state [] 0 =
      ScanRes.found st' tr' (w8state.numBufs + 1) :=
  claim8_clock_fairness.1 w8state (by decide) (by decide) (by decide) (by decide)

/-- The flush scan never adds hash-table entries: a key absent before the
scan is absent from the state any outcome carries. -/
theorem flushFileGo_lookup_none (fid : FileId) (wOk : Bool) :
    ∀ (fuel i : Nat) (st : BufState) (tr : List FOp) (k : HKey),
    htLookup st.hashTable k = none →
    htLookup ((flushFileGo fid wOk i fuel st tr).stOf).hashTable k = none := by
  intro fuel
  induction fuel with
  | zero =>
    intro i st tr k h
    simpa [flushFileGo, Res.stOf] using h
  | succ n ih =>
    intro i st tr k h
    simp only [flushFileGo]
    split
    · simpa [Res.stOf] using h
    · split
      · split
        · simpa [Res.stOf] using h
        · split
          · simpa [Res.stOf] using h
          · split
            · simp only [Res.stOf]
              split
              · simpa using h
              · simpa using h
            · rename_i t hrem
              have ht := htRemove_some_eq hrem
              subst ht
              apply ih
              simp only [hashTable_setDesc]
              apply htLookup_filter_none
              split
              · simpa using h
              · simpa using h
      · exact ih _ _ _ _ h

/-- The flush scan, reaching a first pinned frame `j` of the file, throws
`PagePinned`; frames at or after `j` (and before the scan start) are
untouched, file frames strictly before `j` are flushed — descriptor cleared
and their own key gone from the table — and every key other than those
flushed frames' own keys keeps its binding. -/
theorem flushFileGo_pinned (fid : FileId) (wOk : Bool) :
    ∀ (fuel i : Nat) (j : Nat) (st : BufState) (tr : List FOp),
    Inv st → st.bufDescTable.length = st.numBufs →
    i + fuel = st.numBufs →
    i ≤ j → j < st.numBufs →
    (st.descAt j).file = some fid → (st.descAt j).valid = true →
    (st.descAt j).pinCnt ≠ 0 →
    (∀ m, i ≤ m → m < j → (st.descAt m).file = some fid →
      ((st.descAt m).valid = true ∧ (st.descAt m).pinCnt = 0 ∧
       ((st.descAt m).dirty = true → wOk = true))) →
    ∃ st' tr',
      flushFileGo fid wOk i fuel st tr = Res.err BufError.pagePinned st' tr' ∧
      (∀ g, j ≤ g ∨ g < i → st'.descAt g = st.descAt g) ∧
      (∀ m, i ≤ m → m < j → (st.descAt m).file = some fid →
        st'.descAt m = BufDesc.Clear) ∧
      (∀ m, i ≤ m → m < j → (st.descAt m).file ≠ some fid →
        st'.descAt m = st.descAt m) ∧
      (∀ k : HKey, (∀ m, i ≤ m → m < j → (st.descAt m).file = some fid →
          k ≠ ((st.descAt m).file, (st.descAt m).pageNo)) →
        htLookup st'.hashTable k = htLookup st.hashTable k) ∧
      (∀ m, i ≤ m → m < j → (st.descAt m).file = some fid →
        htLookup st'.hashTable ((st.descAt m).file, (st.descAt m).pageNo) = none) := by
  intro fuel
  induction fuel with
  | zero =>
    intro i j st tr _ _ htot hij hjN _ _ _ _
    omega
  | succ n ih =>
    intro i j st tr hInv hlen htot hij hjN hjf hjv hjp hbef
    by_cases heq : i = j
    · subst heq
      refine ⟨st, tr, ?_, fun g _ => rfl, ?_, ?_, fun k _ => rfl, ?_⟩
      · simp only [flushFileGo]
        rw [if_neg (by rintro ⟨_, hv⟩; rw [hjv] at hv; cases hv),
          if_pos ⟨hjf, hjv⟩, if_pos hjp]
      · intro m h1 h2 _
        omega
      · intro m h1 h2 _
        omega
      · intro m h1 h2 _
        omega
    · have hiN : i < st.numBufs := by omega
      have hilt : i < j := by omega
      by_cases hm : (st.descAt i).file = some fid
      · obtain ⟨hvalm, hpinm, hdirtm⟩ := hbef i le_rfl hilt hm
        have hsing := (hInv.2.2 i hiN).1 hvalm
        have hmem : (((some fid : Option FileId), (st.descAt i).pageNo), i) ∈
            st.hashTable := by
          have := (mem_of_entriesTo_singleton hsing).1
          rw [hm] at this
          exact this
        have hrsome := htRemove_of_lookup_isSome (htLookup_isSome_of_mem hmem)
        have hkeyi : ((st.descAt i).file, (st.descAt i).pageNo) =
            ((some fid : Option FileId), (st.descAt i).pageNo) := by rw [hm]
        by_cases hdm : (st.descAt i).dirty = true
        · -- dirty file frame: write back, remove, clear, continue
          have hwq : wOk = true := hdirtm hdm
          have hXdesc : ((st.setDesc i { st.descAt i with dirty := false }).descAt i) =
              { st.descAt i with dirty := false } :=
            descAt_setDesc_self _ _ _ (hlen ▸ hiN)
          have hInvX : Inv (st.setDesc i { st.descAt i with dirty := false }) :=
            inv_setDesc_same_identity hInv hlen hiN rfl rfl rfl
          have hInvFF : Inv (flushFrameState
              (st.setDesc i { st.descAt i with dirty := false }) i) :=
            inv_flush_frame hInvX (by simpa using hlen) (by simpa using hiN)
              (by rw [hXdesc]; exact hvalm)
          have hInvS : Inv (BufState.setDesc
              { st.setDesc i { st.descAt i with dirty := false } with
                hashTable := (st.setDesc i { st.descAt i with dirty := false }).hashTable.filter
                  (fun e => decide (e.1 ≠ ((some fid : Option FileId), (st.descAt i).pageNo))) }
              i BufDesc.Clear) := by
            refine inv_of_components ?_ ?_ ?_ hInvFF
            · exact rfl
            · exact rfl
            · simp only [hashTable_setDesc, hashTable_flushFrameState, hXdesc]
              rw [hm]
          have hSg : ∀ g, g ≠ i → (BufState.setDesc
              { st.setDesc i { st.descAt i with dirty := false } with
                hashTable := (st.setDesc i { st.descAt i with dirty := false }).hashTable.filter
                  (fun e => decide (e.1 ≠ ((some fid : Option FileId), (st.descAt i).pageNo))) }
              i BufDesc.Clear).descAt g = st.descAt g := by
            intro g hg
            rw [descAt_setDesc_ne _ _ _ _ hg]
            exact descAt_setDesc_ne _ _ _ _ hg
          have hSi : (BufState.setDesc
              { st.setDesc i { st.descAt i with dirty := false } with
                hashTable := (st.setDesc i { st.descAt i with dirty := false }).hashTable.filter
                  (fun e => decide (e.1 ≠ ((some fid : Option FileId), (st.descAt i).pageNo))) }
              i BufDesc.Clear).descAt i = BufDesc.Clear := by
            apply descAt_setDesc_self
            simpa using hlen ▸ hiN
          obtain ⟨st', tr', hrun, hunch, hflu, hnon, hlook, habs⟩ := ih (i + 1) j
            (BufState.setDesc
              { st.setDesc i { st.descAt i with dirty := false } with
                hashTable := (st.setDesc i { st.descAt i with dirty := false }).hashTable.filter
                  (fun e => decide (e.1 ≠ ((some fid : Option FileId), (st.descAt i).pageNo))) }
              i BufDesc.Clear)
            (tr ++ [FOp.writeP (st.descAt i).file (st.poolAt i)])
            hInvS (by simpa using hlen) (by simpa using by omega : (i+1) + n = st.numBufs)
            (by omega) (by simpa using hjN)
            (by rw [hSg j (by omega)]; exact hjf)
            (by rw [hSg j (by omega)]; exact hjv)
            (by rw [hSg j (by omega)]; exact hjp)
            (by
              intro m h1 h2 hmf
              rw [hSg m (by omega)] at hmf ⊢
              exact hbef m (by omega) h2 hmf)
          refine ⟨st', tr', ?_, ?_, ?_, ?_, ?_, ?_⟩
          · simp only [flushFileGo]
            rw [if_neg (by rintro ⟨_, hv⟩; rw [hvalm] at hv; cases hv),
              if_pos ⟨hm, hvalm⟩, if_neg (by simp [hpinm]),
              if_neg (by rintro ⟨_, hw⟩; rw [hwq] at hw; cases hw),
              if_pos hdm, if_pos hdm, hashTable_setDesc, hrsome]
            exact hrun
          · intro g hg
            rw [← hSg g (by omega)]
            exact hunch g (by omega)
          · intro m h1 h2 hmf
            by_cases hmi : m = i
            · subst hmi
              rw [← hSi]
              exact hunch m (by omega)
            · refine hflu m (by omega) h2 ?_
              rw [hSg m hmi]
              exact hmf
          · intro m h1 h2 hmf
            by_cases hmi : m = i
            · subst hmi
              exact absurd hm hmf
            · refine (hnon m (by omega) h2 ?_).trans (hSg m hmi)
              rw [hSg m hmi]
              exact hmf
          · intro k hk
            have hki : k ≠ ((some fid : Option FileId), (st.descAt i).pageNo) := by
              have := hk i le_rfl hilt hm
              rw [hkeyi] at this
              exact this
            have h1 : htLookup st'.hashTable k =
                htLookup ((st.setDesc i { st.descAt i with dirty := false }).hashTable.filter
                  (fun e => decide (e.1 ≠ ((some fid : Option FileId), (st.descAt i).pageNo)))) k := by
              refine hlook k ?_
              intro m h1 h2 hmf
              rw [hSg m (by omega)] at hmf ⊢
              exact hk m (by omega) h2 hmf
            rw [h1]
            exact htLookup_filter_ne _ _ _ hki
          · intro m h1 h2 hmf
            by_cases hmi : m = i
            · rw [hmi, hkeyi]
              have habs0 : htLookup
                  ((st.setDesc i { st.descAt i with dirty := false }).hashTable.filter
                    (fun e => decide (e.1 ≠ ((some fid : Option FileId), (st.descAt i).pageNo))))
                  ((some fid : Option FileId), (st.descAt i).pageNo) = none :=
                htLookup_filter_self _ _
              have hpres := flushFileGo_lookup_none fid wOk n (i + 1)
                (BufState.setDesc
                  { st.setDesc i { st.descAt i with dirty := false } with
                    hashTable := (st.setDesc i { st.descAt i with dirty := false }).hashTable.filter
                      (fun e => decide (e.1 ≠ ((some fid : Option FileId), (st.descAt i).pageNo))) }
                  i BufDesc.Clear)
                (tr ++ [FOp.writeP (st.descAt i).file (st.poolAt i)])
                ((some fid : Option FileId), (st.descAt i).pageNo) habs0
              rw [hrun] at hpres
              simpa [Res.stOf] using hpres
            · have hres := habs m (by omega) h2 (by rw [hSg m hmi]; exact hmf)
              rw [hSg m hmi] at hres
              exact hres
        · -- clean file frame: remove, clear, continue
          have hInvFF : Inv (flushFrameState st i) :=
            inv_flush_frame hInv hlen hiN hvalm
          have hInvS : Inv (BufState.setDesc
              { st with
                hashTable := st.hashTable.filter
                  (fun e => decide (e.1 ≠ ((some fid : Option FileId), (st.descAt i).pageNo))) }
              i BufDesc.Clear) := by
            refine inv_of_components ?_ ?_ ?_ hInvFF
            · exact rfl
            · exact rfl
            · simp only [hashTable_setDesc, hashTable_flushFrameState]
              rw [hm]
          have hSg : ∀ g, g ≠ i → (BufState.setDesc
              { st with
                hashTable := st.hashTable.filter
                  (fun e => decide (e.1 ≠ ((some fid : Option FileId), (st.descAt i).pageNo))) }
              i BufDesc.Clear).descAt g = st.descAt g := by
            intro g hg
            exact descAt_setDesc_ne _ _ _ _ hg
          have hSi : (BufState.setDesc
              { st with
                hashTable := st.hashTable.filter
                  (fun e => decide (e.1 ≠ ((some fid : Option FileId), (st.descAt i).pageNo))) }
              i BufDesc.Clear).descAt i = BufDesc.Clear := by
            apply descAt_setDesc_self
            simpa using hlen ▸ hiN
          obtain ⟨st', tr', hrun, hunch, hflu, hnon, hlook, habs⟩ := ih (i + 1) j
            (BufState.setDesc
              { st with
                hashTable := st.hashTable.filter
                  (fun e => decide (e.1 ≠ ((some fid : Option FileId), (st.descAt i).pageNo))) }
              i BufDesc.Clear) tr
            hInvS (by simpa using hlen) (by simpa using by omega : (i+1) + n = st.numBufs)
            (by omega) (by simpa using hjN)
            (by rw [hSg j (by omega)]; exact hjf)
            (by rw [hSg j (by omega)]; exact hjv)
            (by rw [hSg j (by omega)]; exact hjp)
            (by
              intro m h1 h2 hmf
              rw [hSg m (by omega)] at hmf ⊢
              exact hbef m (by omega) h2 hmf)
          refine ⟨st', tr', ?_, ?_, ?_, ?_, ?_, ?_⟩
          · simp only [flushFileGo]
            rw [if_neg (by rintro ⟨_, hv⟩; rw [hvalm] at hv; cases hv),
              if_pos ⟨hm, hvalm⟩, if_neg (by simp [hpinm]),
              if_neg (by rintro ⟨hd, _⟩; exact hdm hd),
              if_neg hdm, if_neg hdm, hrsome]
            exact hrun
          · intro g hg
            rw [← hSg g (by omega)]
            exact hunch g (by omega)
          · intro m h1 h2 hmf
            by_cases hmi : m = i
            · subst hmi
              rw [← hSi]
              exact hunch m (by omega)
            · refine hflu m (by omega) h2 ?_
              rw [hSg m hmi]
              exact hmf
          · intro m h1 h2 hmf
            by_cases hmi : m = i
            · subst hmi
              exact absurd hm hmf
            · refine (hnon m (by omega) h2 ?_).trans (hSg m hmi)
              rw [hSg m hmi]
              exact hmf
          · intro k hk
            have hki : k ≠ ((some fid : Option FileId), (st.descAt i).pageNo) := by
              have := hk i le_rfl hilt hm
              rw [hkeyi] at this
              exact this
            have h1 : htLookup st'.hashTable k =
                htLookup (st.hashTable.filter
                  (fun e => decide (e.1 ≠ ((some fid : Option FileId), (st.descAt i).pageNo)))) k := by
              refine hlook k ?_
              intro m h1 h2 hmf
              rw [hSg m (by omega)] at hmf ⊢
              exact hk m (by omega) h2 hmf
            rw [h1]
            exact htLookup_filter_ne _ _ _ hki
          · intro m h1 h2 hmf
            by_cases hmi : m = i
            · rw [hmi, hkeyi]
              have habs0 : htLookup
                  (st.hashTable.filter
                    (fun e => decide (e.1 ≠ ((some fid : Option FileId), (st.descAt i).pageNo))))
                  ((some fid : Option FileId), (st.descAt i).pageNo) = none :=
                htLookup_filter_self _ _
              have hpres := flushFileGo_lookup_none fid wOk n (i + 1)
                (BufState.setDesc
                  { st with
                    hashTable := st.hashTable.filter
                      (fun e => decide (e.1 ≠ ((some fid : Option FileId), (st.descAt i).pageNo))) }
                  i BufDesc.Clear) tr
                ((some fid : Option FileId), (st.descAt i).pageNo) habs0
              rw [hrun] at hpres
              simpa [Res.stOf] using hpres
            · have hres := habs m (by omega) h2 (by rw [hSg m hmi]; exact hmf)
              rw [hSg m hmi] at hres
              exact hres
      · -- frame of another file (or empty): skip
        obtain ⟨st', tr', hrun, hunch, hflu, hnon, hlook, habs⟩ := ih (i + 1) j st tr
          hInv hlen (by omega) (by omega) hjN hjf hjv hjp
          (fun m h1 h2 hmf => hbef m (by omega) h2 hmf)
        refine ⟨st', tr', ?_, ?_, ?_, ?_, ?_, ?_⟩
        · simp only [flushFileGo]
          rw [if_neg (by rintro ⟨hf, _⟩; exact hm hf),
            if_neg (by rintro ⟨hf, _⟩; exact hm hf)]
          exact hrun
        · intro g hg
          exact hunch g (by omega)
        · intro m h1 h2 hmf
          by_cases hmi : m = i
          · subst hmi
            exact absurd hmf hm
          · exact hflu m (by omega) h2 hmf
        · intro m h1 h2 hmf
          by_cases hmi : m = i
          · subst hmi
            exact hunch m (by omega)
          · exact hnon m (by omega) h2 hmf
        · intro k hk
          exact hlook k (fun m h1 h2 hmf => hk m (by omega) h2 hmf)
        · intro m h1 h2 hmf
          by_cases hmi : m = i
          · rw [hmi] at hmf
            exact absurd hmf hm
          · exact habs m (by omega) h2 hmf

/-- C3 (amended): when `flushFile` reaches the first pinned frame `j` of the
file, it fails with `PagePinned`; every frame at index ≥ `j` is unchanged and
— for valid ones — keeps its page-table entry, while file frames before `j`
have been flushed: their descriptors are cleared and their `(file, pageNo)`
entries are removed from the page table; non-file frames before `j` are
unchanged.  The original claim, that *every* clean unpinned frame of the file
is unchanged, is false for frames scanned before the pinned one
(`claim3_counterexample`). -/
theorem claim3_amended_flush (st : BufState) (fid : FileId) (wOk : Bool) (j : Nat)
    (hWF : WF st) (hInv : Inv st)
    (hj : j < st.numBufs)
    (hjf : (st.descAt j).file = some fid)
    (hjv : (st.descAt j).valid = true)
    (hjp : (st.descAt j).pinCnt ≠ 0)
    (hbefore : ∀ m, m < j → (st.descAt m).file = some fid →
      ((st.descAt m).valid = true ∧ (st.descAt m).pinCnt = 0 ∧
       ((st.descAt m).dirty = true → wOk = true))) :
    ∃ st' tr',
      flushFile st fid wOk = Res.err BufError.pagePinned st' tr' ∧
      (∀ g, j ≤ g → g < st.numBufs → st'.descAt g = st.descAt g) ∧
      (∀ g, j ≤ g → g < st.numBufs → (st.descAt g).valid = true →
        htLookup st'.hashTable ((st.descAt g).file, (st.descAt g).pageNo) = some g) ∧
      (∀ m, m < j → (st.descAt m).file = some fid → st'.descAt m = BufDesc.Clear) ∧
      (∀ m, m < j → (st.descAt m).file ≠ some fid → st'.descAt m = st.descAt m) ∧
      (∀ m, m < j → (st.descAt m).file = some fid →
        htLookup st'.hashTable ((st.descAt m).file, (st.descAt m).pageNo) = none) := by
  obtain ⟨st', tr', hrun, hunch, hflu, hnon, hlook, habs⟩ :=
    flushFileGo_pinned fid wOk st.numBufs 0 j st [] hInv hWF.2.1 (by omega)
      (by omega) hj hjf hjv hjp (fun m _ h2 hmf => hbefore m h2 hmf)
  refine ⟨st', tr', hrun, fun g hg1 _ => hunch g (Or.inl hg1), ?_,
    fun m h2 hmf => hflu m (Nat.zero_le m) h2 hmf,
    fun m h2 hmf => hnon m (Nat.zero_le m) h2 hmf,
    fun m h2 hmf => habs m (Nat.zero_le m) h2 hmf⟩
  intro g hg1 hg2 hgv
  have hsingg := (hInv.2.2 g hg2).1 hgv
  have hmemg := (mem_of_entriesTo_singleton hsingg).1
  have hbeforeLookup : htLookup st.hashTable
      ((st.descAt g).file, (st.descAt g).pageNo) = some g :=
    htLookup_of_mem_nodup hInv.1 hmemg
  have havoid : ∀ m, 0 ≤ m → m < j → (st.descAt m).file = some fid →
      ((st.descAt g).file, (st.descAt g).pageNo) ≠
        ((st.descAt m).file, (st.descAt m).pageNo) := by
    intro m _ h2 hmf hkeq
    have hsingm := (hInv.2.2 m (by omega)).1 (hbefore m h2 hmf).1
    have hmemm := (mem_of_entriesTo_singleton hsingm).1
    have hgm : g = m := nodup_keys_mem_eq hInv.1 (hkeq ▸ hmemg) hmemm
    omega
  exact (hlook _ havoid).trans hbeforeLookup

/-- C3 witness (for the amended claim): in `c3failState` the pinned frame of
file 7 is frame 1; `flushFile` fails with `PagePinned`, frame 1 and its entry
survive, and frame 0 — the file frame scanned first — is flushed: its
descriptor is cleared and its entry is gone from the table. -/
theorem claim3_amended_flush_witness :
    ∃ st' tr',
      flushFile c3failState 7 true = Res.err BufError.pagePinned st' tr' ∧
      (∀ g, 1 ≤ g → g < c3failState.numBufs →
        st'.descAt g = c3failState.descAt g) ∧
      (∀ g, 1 ≤ g → g < c3failState.numBufs →
        (c3failState.descAt g).valid = true →
        htLookup st'.hashTable
          ((c3failState.descAt g).file, (c3failState.descAt g).pageNo) = some g) ∧
      (∀ m, m < 1 → (c3failState.descAt m).file = some 7 →
        st'.descAt m = BufDesc.Clear) ∧
      (∀ m, m < 1 → (c3failState.descAt m).file ≠ some 7 →
        st'.descAt m = c3failState.descAt m) ∧
      (∀ m, m < 1 → (c3failState.descAt m).file = some 7 →
        htLookup st'.hashTable
          ((c3failState.descAt m).file, (c3failState.descAt m).pageNo) = none) :=
  claim3_amended_flush c3failState 7 true 1 (by decide) (by decide) (by decide)
    (by decide) (by decide) (by decide) (by decide)

end BufMgrModel
